import Mathlib

/-!
# Verification of the Canary context CLI (src/canary-context.py)

A shallow embedding of the program's data model and operations:

* JSON values carried between the HTTP layer and the three output
  formatters are modelled by `JVal` (JSON numbers are modelled as
  integers; the payloads this tool handles carry identifiers and
  timestamp strings, never fractional numbers).
* Python runtime failures that the formatters can raise (`KeyError`,
  `TypeError`, `AttributeError`) are modelled by `PyErr`; fallible code
  returns `Except PyErr _`.
* File contents are modelled as `List Char`.
-/

/-- A JSON value, as produced by `response.json()` and consumed by the
formatters.  Object members are an association list in server order
(Python dicts preserve insertion order); JSON numbers are modelled as
integers. -/
inductive JVal where
  | null
  | bool (b : Bool)
  | num (n : Int)
  | str (s : String)
  | arr (elems : List JVal)
  | obj (fields : List (String × JVal))

/-- The Python exceptions the embedded code can raise. -/
inductive PyErr where
  | keyError (key : String)
  | typeError (msg : String)
  | attributeError (msg : String)
  | valueError (msg : String)
  deriving DecidableEq

deriving instance DecidableEq for Except

/-- Python `dict.get(key)` on an object's member list: the value of the
first member named `key`, if any. -/
def jlookup : List (String × JVal) → String → Option JVal
  | [], _ => none
  | (k, v) :: fields, key => if k = key then some v else jlookup fields key

/-- Python `dict[key]`: the member's value, or a `KeyError`. -/
def jIndex (fields : List (String × JVal)) (key : String) : Except PyErr JVal :=
  match jlookup fields key with
  | some v => .ok v
  | none => .error (.keyError key)

/-- Python truthiness of a JSON value (`if tags:` / `if tag_context_data:`):
`None`, `False`, `0`, and empty strings/lists/dicts are falsy. -/
def pyTruthy : JVal → Bool
  | .null => false
  | .bool b => b
  | .num n => n != 0
  | .str s => !s.isEmpty
  | .arr elems => !elems.isEmpty
  | .obj fields => !fields.isEmpty

/-- Two hexadecimal digits (lowercase), for `\xXX` escapes in Python `repr`. -/
def hexDigitChar (d : Nat) : Char :=
  if d < 10 then Char.ofNat (48 + d) else Char.ofNat (87 + d)

/-- Python `repr` of a one-character fragment of a string literal, given the
chosen quote character: backslash, the quote, newline, carriage return and
tab get two-character escapes, other ASCII control characters get `\xXX`;
printable characters are kept verbatim. -/
def pyReprStrChar (q : Char) (c : Char) : List Char :=
  if c = '\\' then ['\\', '\\']
  else if c = q then ['\\', q]
  else if c = '\n' then ['\\', 'n']
  else if c = '\r' then ['\\', 'r']
  else if c = '\t' then ['\\', 't']
  else if c.toNat < 32 ∨ c.toNat = 127 then
    ['\\', 'x', hexDigitChar (c.toNat / 16), hexDigitChar (c.toNat % 16)]
  else [c]

/-- Python `repr` of a string: single-quoted, except double-quoted when the
string contains a single quote but no double quote. -/
def pyReprStr (s : String) : List Char :=
  let q : Char := if s.toList.contains '\'' && !(s.toList.contains '"') then '"' else '\''
  q :: s.toList.flatMap (pyReprStrChar q) ++ [q]

mutual

/-- Decidable equality of JSON values (the automatic derivation does not
handle the nested occurrence of `List JVal`). -/
def jvalDecEq : (a b : JVal) → Decidable (a = b)
  | .null, .null => isTrue rfl
  | .null, .bool _ | .null, .num _ | .null, .str _ | .null, .arr _ | .null, .obj _ =>
      isFalse (fun h => JVal.noConfusion h)
  | .bool _, .null | .bool _, .num _ | .bool _, .str _ | .bool _, .arr _ | .bool _, .obj _ =>
      isFalse (fun h => JVal.noConfusion h)
  | .num _, .null | .num _, .bool _ | .num _, .str _ | .num _, .arr _ | .num _, .obj _ =>
      isFalse (fun h => JVal.noConfusion h)
  | .str _, .null | .str _, .bool _ | .str _, .num _ | .str _, .arr _ | .str _, .obj _ =>
      isFalse (fun h => JVal.noConfusion h)
  | .arr _, .null | .arr _, .bool _ | .arr _, .num _ | .arr _, .str _ | .arr _, .obj _ =>
      isFalse (fun h => JVal.noConfusion h)
  | .obj _, .null | .obj _, .bool _ | .obj _, .num _ | .obj _, .str _ | .obj _, .arr _ =>
      isFalse (fun h => JVal.noConfusion h)
  | .bool a, .bool b =>
    match instDecidableEqBool a b with
    | isTrue h => isTrue (by rw [h])
    | isFalse h => isFalse (fun hh => h (JVal.bool.inj hh))
  | .num a, .num b =>
    match Int.instDecidableEq a b with
    | isTrue h => isTrue (by rw [h])
    | isFalse h => isFalse (fun hh => h (JVal.num.inj hh))
  | .str a, .str b =>
    match String.decEq a b with
    | isTrue h => isTrue (by rw [h])
    | isFalse h => isFalse (fun hh => h (JVal.str.inj hh))
  | .arr a, .arr b =>
    match jvalElemsDecEq a b with
    | isTrue h => isTrue (by rw [h])
    | isFalse h => isFalse (fun hh => h (JVal.arr.inj hh))
  | .obj a, .obj b =>
    match jvalFieldsDecEq a b with
    | isTrue h => isTrue (by rw [h])
    | isFalse h => isFalse (fun hh => h (JVal.obj.inj hh))

/-- Decidable equality of JSON value lists. -/
def jvalElemsDecEq : (a b : List JVal) → Decidable (a = b)
  | [], [] => isTrue rfl
  | [], _ :: _ => isFalse (fun h => List.noConfusion h)
  | _ :: _, [] => isFalse (fun h => List.noConfusion h)
  | x :: xs, y :: ys =>
    match jvalDecEq x y with
    | isFalse h => isFalse (fun hh => h (List.cons.inj hh).1)
    | isTrue h1 =>
      match jvalElemsDecEq xs ys with
      | isTrue h2 => isTrue (by rw [h1, h2])
      | isFalse h2 => isFalse (fun hh => h2 (List.cons.inj hh).2)

/-- Decidable equality of JSON object member lists. -/
def jvalFieldsDecEq : (a b : List (String × JVal)) → Decidable (a = b)
  | [], [] => isTrue rfl
  | [], _ :: _ => isFalse (fun h => List.noConfusion h)
  | _ :: _, [] => isFalse (fun h => List.noConfusion h)
  | (k, v) :: xs, (k2, v2) :: ys =>
    match String.decEq k k2 with
    | isFalse h => isFalse (fun hh => h (congrArg Prod.fst (List.cons.inj hh).1))
    | isTrue hk =>
      match jvalDecEq v v2 with
      | isFalse h => isFalse (fun hh => h (congrArg Prod.snd (List.cons.inj hh).1))
      | isTrue hv =>
        match jvalFieldsDecEq xs ys with
        | isTrue ht => isTrue (by rw [hk, hv, ht])
        | isFalse ht => isFalse (fun hh => ht (List.cons.inj hh).2)

end

instance : DecidableEq JVal := jvalDecEq

mutual

/-- Python `repr` of a JSON value (`repr(None) = "None"`, lists with
`[x, y]` layout, dicts with `{k: v}` layout). -/
def pyRepr : JVal → List Char
  | .null => "None".toList
  | .bool true => "True".toList
  | .bool false => "False".toList
  | .num n => (toString n).toList
  | .str s => pyReprStr s
  | .arr elems => '[' :: pyReprElems elems ++ [']']
  | .obj fields => '\x7b' :: pyReprMembers fields ++ ['\x7d']

/-- `repr` of the comma-separated elements of a Python list. -/
def pyReprElems : List JVal → List Char
  | [] => []
  | [x] => pyRepr x
  | x :: y :: elems => pyRepr x ++ ',' :: ' ' :: pyReprElems (y :: elems)

/-- `repr` of the comma-separated members of a Python dict. -/
def pyReprMembers : List (String × JVal) → List Char
  | [] => []
  | [(k, v)] => pyReprStr k ++ ':' :: ' ' :: pyRepr v
  | (k, v) :: p :: fields =>
      pyReprStr k ++ ':' :: ' ' :: pyRepr v ++ ',' :: ' ' :: pyReprMembers (p :: fields)

end

/-- Python `str()` of a JSON value, as used by f-string interpolation and by
the `csv` writer on non-string values: strings are kept as-is, every other
value is rendered by `repr`. -/
def pyStr : JVal → List Char
  | .str s => s.toList
  | v => pyRepr v

/-- Rendering of a `dict.get` result in an f-string: an absent member is
`None`, so it prints as `None`. -/
def pyStrOpt : Option JVal → List Char
  | none => "None".toList
  | some v => pyStr v

/-! ## `save_to_csv` (source lines 54-77)

`csv.DictWriter` with the default `excel` dialect: comma delimiter,
`"` quote character, minimal quoting, `\r\n` line terminator.  A `None`
value is written as an empty field; non-string values go through `str()`. -/

/-- The fixed `fieldnames` list passed to `csv.DictWriter` (lines 58-64). -/
def csvFieldnames : List String :=
  ["tagName", "historianItemId", "sourceItemId", "oldestTimeStamp", "latestTimeStamp"]

/-- Minimal quoting: a field is quoted iff it contains the delimiter, the
quote character, or a line-terminator character. -/
def csvNeedsQuote (s : List Char) : Bool :=
  s.any fun c => c = ',' || c = '"' || c = '\r' || c = '\n'

/-- Inside a quoted field the quote character is doubled. -/
def csvEscape (s : List Char) : List Char :=
  s.flatMap fun c => if c = '"' then ['"', '"'] else [c]

/-- One serialized CSV field under minimal quoting. -/
def csvField (s : List Char) : List Char :=
  if csvNeedsQuote s then '"' :: csvEscape s ++ ['"'] else s

/-- The string the csv writer puts in one cell: `None` becomes the empty
field, anything else is `str()`-rendered. -/
def csvCell : Option JVal → List Char
  | none => []
  | some v => pyStr v

/-- Fragments joined by a separator (`sep.join(...)`). -/
def joinSep (sep : List Char) : List (List Char) → List Char
  | [] => []
  | [x] => x
  | x :: y :: rest => x ++ sep ++ joinSep sep (y :: rest)

/-- One CSV row: the quoted cells joined by commas, terminated by `\r\n`. -/
def csvRowOfCells (cells : List (Option JVal)) : List Char :=
  joinSep [','] (cells.map fun c => csvField (csvCell c)) ++ ['\r', '\n']

/-- The header row written by `writer.writeheader()`: the field names
themselves, through the same row serialization. -/
def csvHeader : List Char :=
  csvRowOfCells (csvFieldnames.map fun n => some (.str n))

/-- The five values of the row dict built for one record (lines 68-76), in
`fieldnames` order.  Evaluation order follows the source: the
`item["tagContext"]` subscript on line 68 runs first, then the
`item["tagName"]` subscript, then the four `tag_context.get(...)` calls,
which need `tag_context` to be a dict. -/
def csvCells (item : JVal) : Except PyErr (List (Option JVal)) :=
  match item with
  | .obj fields => do
    let tagContext ← jIndex fields "tagContext"
    let tagName ← jIndex fields "tagName"
    match tagContext with
    | .obj ctx =>
        .ok [some tagName, jlookup ctx "historianItemId", jlookup ctx "sourceItemId",
             jlookup ctx "oldestTimeStamp", jlookup ctx "latestTimeStamp"]
    | _ => .error (.attributeError "get")
  | _ => .error (.typeError "item is not a dict")

/-- One record's serialized CSV row (`writer.writerow`, lines 69-77). -/
def csvRowOf (item : JVal) : Except PyErr (List Char) := do
  let cells ← csvCells item
  .ok (csvRowOfCells cells)

/-- The `for item in data` loop body of `save_to_csv`, over a record list. -/
def csvRows : List JVal → Except PyErr (List Char)
  | [] => .ok []
  | item :: rest => do
    let row ← csvRowOf item
    let rows ← csvRows rest
    .ok (row ++ rows)

/-- `save_to_csv(data, filename)`: the contents written to the file, or the
exception the loop raises.  The `data` payload is the server's `data`
field; a non-list payload fails on record access. -/
def save_to_csv : JVal → Except PyErr (List Char)
  | .arr items => do
    let rows ← csvRows items
    .ok (csvHeader ++ rows)
  | _ => .error (.typeError "data is not a list of records")

/-! ## `save_to_txt` (source lines 80-94) -/

/-- The five labelled lines written for one record (lines 83-93).
Evaluation order follows the source: `item['tagName']` on line 83 first,
then `item['tagContext']`, whose `.get` needs a dict. -/
def txtBlock (item : JVal) : Except PyErr (List Char) :=
  match item with
  | .obj fields => do
    let tagName ← jIndex fields "tagName"
    let tagContext ← jIndex fields "tagContext"
    match tagContext with
    | .obj ctx =>
        .ok ("TagName: ".toList ++ pyStr tagName ++ '\n' ::
             "  HistorianItemId: ".toList ++ pyStrOpt (jlookup ctx "historianItemId") ++ '\n' ::
             "  SourceItemId: ".toList ++ pyStrOpt (jlookup ctx "sourceItemId") ++ '\n' ::
             "  OldestTimeStamp: ".toList ++ pyStrOpt (jlookup ctx "oldestTimeStamp") ++ '\n' ::
             "  LatestTimeStamp: ".toList ++ pyStrOpt (jlookup ctx "latestTimeStamp") ++ ['\n'])
    | _ => .error (.attributeError "get")
  | _ => .error (.typeError "item is not a dict")

/-- The `for item in data` loop of `save_to_txt`: each record's block is
followed by the `file.write("\n")` blank-line separator of line 94. -/
def txtItems : List JVal → Except PyErr (List Char)
  | [] => .ok []
  | item :: rest => do
    let block ← txtBlock item
    let blocks ← txtItems rest
    .ok (block ++ '\n' :: blocks)

/-- `save_to_txt(data, filename)`: the contents written to the file, or the
exception the loop raises. -/
def save_to_txt : JVal → Except PyErr (List Char)
  | .arr items => txtItems items
  | _ => .error (.typeError "data is not a list of records")

/-! ## `save_to_json` (source lines 97-99)

`json.dump(data, file, indent=4)`: pretty-printed with a four-space indent
per nesting level, separators `(",", ": ")`, keys in dict order, and
`ensure_ascii` escaping of strings (characters outside printable ASCII are
written as `\uXXXX`, astral characters as a surrogate pair). -/

/-- `n` spaces of indentation. -/
def nspaces (n : Nat) : List Char := List.replicate n ' '

/-- The decimal digit character for `d < 10`. -/
def decDigitChar (d : Nat) : Char := Char.ofNat (48 + d)

/-- Four lowercase hex digits, as in Python's `\u%04x`. -/
def hex4 (n : Nat) : List Char :=
  [hexDigitChar (n / 4096 % 16), hexDigitChar (n / 256 % 16),
   hexDigitChar (n / 16 % 16), hexDigitChar (n % 16)]

/-- `json.dumps` escaping of one character of a string, with the default
`ensure_ascii=True`: the two-character shortcuts for `"`, `\`, newline,
carriage return, tab, backspace and form feed; `\uXXXX` for every other
character outside printable ASCII, using a UTF-16 surrogate pair above
`U+FFFF`. -/
def jsonEscChar (c : Char) : List Char :=
  if c = '"' then ['\\', '"']
  else if c = '\\' then ['\\', '\\']
  else if c = '\n' then ['\\', 'n']
  else if c = '\r' then ['\\', 'r']
  else if c = '\t' then ['\\', 't']
  else if c.toNat = 8 then ['\\', 'b']
  else if c.toNat = 12 then ['\\', 'f']
  else if c.toNat < 32 ∨ (127 ≤ c.toNat ∧ c.toNat < 65536) then '\\' :: 'u' :: hex4 c.toNat
  else if 65536 ≤ c.toNat then
    '\\' :: 'u' :: hex4 (55296 + (c.toNat - 65536) / 1024) ++
      '\\' :: 'u' :: hex4 (56320 + (c.toNat - 65536) % 1024)
  else [c]

/-- A JSON string literal: the escaped characters between double quotes. -/
def jsonQuote (s : String) : List Char := '"' :: s.toList.flatMap jsonEscChar ++ ['"']

/-- Decimal digits of a natural number, fuelled so that the definition
reduces; sufficient fuel is any bound above the digit count. -/
def natCharsAux : Nat → Nat → List Char
  | 0, _ => []
  | fuel + 1, n =>
    if n < 10 then [decDigitChar n]
    else natCharsAux fuel (n / 10) ++ [decDigitChar (n % 10)]

/-- The decimal rendering of a natural number. -/
def natChars (n : Nat) : List Char := natCharsAux (n + 1) n

/-- Python's rendering of an integer (`int.__repr__`). -/
def intChars (n : Int) : List Char :=
  if n < 0 then '-' :: natChars n.natAbs else natChars n.toNat

mutual

/-- The serialization `json.dump(·, file, indent=4)` produces for a value
sitting at indentation level `ind`. -/
def dumpVal : Nat → JVal → List Char
  | _, .null => "null".toList
  | _, .bool true => "true".toList
  | _, .bool false => "false".toList
  | _, .num n => intChars n
  | _, .str s => jsonQuote s
  | _, .arr [] => "[]".toList
  | ind, .arr (x :: elems) =>
      '[' :: '\n' :: nspaces (ind + 4) ++ dumpElems (ind + 4) (x :: elems) ++
        '\n' :: nspaces ind ++ [']']
  | _, .obj [] => "\x7b\x7d".toList
  | ind, .obj (f :: fields) =>
      '\x7b' :: '\n' :: nspaces (ind + 4) ++ dumpMembers (ind + 4) (f :: fields) ++
        '\n' :: nspaces ind ++ ['\x7d']

/-- Array elements at indentation `ind`, separated by `",\n" ++ ind` spaces. -/
def dumpElems : Nat → List JVal → List Char
  | _, [] => []
  | ind, [x] => dumpVal ind x
  | ind, x :: y :: elems =>
      dumpVal ind x ++ ',' :: '\n' :: nspaces ind ++ dumpElems ind (y :: elems)

/-- Object members at indentation `ind`, each `"key": value`. -/
def dumpMembers : Nat → List (String × JVal) → List Char
  | _, [] => []
  | ind, [(k, v)] => jsonQuote k ++ ':' :: ' ' :: dumpVal ind v
  | ind, (k, v) :: p :: fields =>
      jsonQuote k ++ ':' :: ' ' :: dumpVal ind v ++
        ',' :: '\n' :: nspaces ind ++ dumpMembers ind (p :: fields)

end

/-- `save_to_json(data, filename)`: the file receives exactly
`json.dump(data, file, indent=4)`.  Total: every `JVal` is serializable. -/
def save_to_json (data : JVal) : Except PyErr (List Char) := .ok (dumpVal 0 data)

/-! ## A JSON parser, modelling `json.loads`

Used to state the round-trip property of the JSON output and to model
`response.json()`.  Restrictions inherited from the embedding: numbers are
integers, and a lone UTF-16 surrogate escape is rejected (Lean strings
cannot carry unpaired surrogates; `json.dump` never emits them).  Object
members are returned in textual order. -/

/-- JSON whitespace. -/
def isJsonWs (c : Char) : Bool := c = ' ' || c = '\t' || c = '\n' || c = '\r'

/-- Drop leading JSON whitespace. -/
def skipWs : List Char → List Char
  | c :: cs => if isJsonWs c then skipWs cs else c :: cs
  | [] => []

/-- The value of one hexadecimal digit character. -/
def hexVal (c : Char) : Option Nat :=
  if '0' ≤ c ∧ c ≤ '9' then some (c.toNat - 48)
  else if 'a' ≤ c ∧ c ≤ 'f' then some (c.toNat - 87)
  else if 'A' ≤ c ∧ c ≤ 'F' then some (c.toNat - 55)
  else none

/-- The JSON one-character escapes (`\" \\ \/ \b \f \n \r \t`). -/
def escChar1 (e : Char) : Option Char :=
  match e with
  | '"' => some '"'
  | '\\' => some '\\'
  | '/' => some '/'
  | 'b' => some (Char.ofNat 8)
  | 'f' => some (Char.ofNat 12)
  | 'n' => some '\n'
  | 'r' => some '\r'
  | 't' => some '\t'
  | _ => none

/-- Four hex digits after `\u`, as a code unit. -/
def parseUHex : List Char → Option (Nat × List Char)
  | a :: b :: c :: d :: rest =>
    (match hexVal a, hexVal b, hexVal c, hexVal d with
     | some w, some x, some y, some z => some (w * 4096 + x * 256 + y * 16 + z, rest)
     | _, _, _, _ => none)
  | _ => none

/-- String-body parser: consumes characters until the closing quote,
undoing the escapes `jsonEscChar` can produce (plus `\/`), combining
surrogate pairs, and rejecting raw control characters as `json.loads`
does in strict mode.  Fuelled: one unit per source character; any fuel
above the decoded length suffices, and callers pass the input length. -/
def parseStrAux : Nat → List Char → List Char → Option (List Char × List Char)
  | 0, _, _ => none
  | fuel + 1, acc, cs =>
    match cs with
    | [] => none
    | '"' :: rest => some (acc.reverse, rest)
    | '\\' :: 'u' :: rest =>
      (match parseUHex rest with
       | some (n, r) =>
         if n < 55296 ∨ 57344 ≤ n then parseStrAux fuel (Char.ofNat n :: acc) r
         else if n < 56320 then
           match r with
           | '\\' :: 'u' :: r2 =>
             (match parseUHex r2 with
              | some (m, r3) =>
                if 56320 ≤ m ∧ m < 57344 then
                  parseStrAux fuel
                    (Char.ofNat (65536 + (n - 55296) * 1024 + (m - 56320)) :: acc) r3
                else none
              | none => none)
           | _ => none
         else none
       | none => none)
    | '\\' :: e :: rest =>
      (match escChar1 e with
       | some ec => parseStrAux fuel (ec :: acc) rest
       | none => none)
    | ['\\'] => none
    | c :: rest => if c.toNat < 32 then none else parseStrAux fuel (c :: acc) rest

/-- Greedy decimal-digit consumer with accumulator. -/
def parseNatAux : Nat → List Char → Nat × List Char
  | acc, c :: cs =>
    if c.isDigit then parseNatAux (acc * 10 + (c.toNat - 48)) cs else (acc, c :: cs)
  | acc, [] => (acc, [])

/-- A natural-number literal: at least one digit, consumed greedily. -/
def parseNum : List Char → Option (Nat × List Char)
  | c :: cs => if c.isDigit then some (parseNatAux 0 (c :: cs)) else none
  | [] => none

mutual

/-- Parse one JSON value after optional leading whitespace.  The fuel
decreases on every nested call; any fuel above the value's nesting depth
suffices. -/
def parseVal : Nat → List Char → Option (JVal × List Char)
  | 0, _ => none
  | fuel + 1, cs =>
    match skipWs cs with
    | 'n' :: 'u' :: 'l' :: 'l' :: rest => some (.null, rest)
    | 't' :: 'r' :: 'u' :: 'e' :: rest => some (.bool true, rest)
    | 'f' :: 'a' :: 'l' :: 's' :: 'e' :: rest => some (.bool false, rest)
    | '"' :: rest =>
      (match parseStrAux (rest.length + 1) [] rest with
       | some (body, r) => some (.str (String.mk body), r)
       | none => none)
    | '[' :: rest =>
      (match skipWs rest with
       | ']' :: r => some (.arr [], r)
       | cs2 =>
         match parseElems fuel cs2 with
         | some (elems, r) => some (.arr elems, r)
         | none => none)
    | '\x7b' :: rest =>
      (match skipWs rest with
       | '\x7d' :: r => some (.obj [], r)
       | cs2 =>
         match parseMembers fuel cs2 with
         | some (fields, r) => some (.obj fields, r)
         | none => none)
    | '-' :: rest =>
      (match parseNum rest with
       | some (n, r) => some (.num (-(n : Int)), r)
       | none => none)
    | c :: rest =>
      if c.isDigit then
        match parseNum (c :: rest) with
        | some (n, r) => some (.num (n : Int), r)
        | none => none
      else none
    | [] => none

/-- Parse the elements of a non-empty array, up to and including `]`. -/
def parseElems : Nat → List Char → Option (List JVal × List Char)
  | 0, _ => none
  | fuel + 1, cs =>
    match parseVal fuel cs with
    | some (v, r) =>
      (match skipWs r with
       | ',' :: r2 =>
         (match parseElems fuel r2 with
          | some (elems, r3) => some (v :: elems, r3)
          | none => none)
       | ']' :: r2 => some ([v], r2)
       | _ => none)
    | none => none

/-- Parse the members of a non-empty object, up to and including the
closing brace. -/
def parseMembers : Nat → List Char → Option (List (String × JVal) × List Char)
  | 0, _ => none
  | fuel + 1, cs =>
    match skipWs cs with
    | '"' :: r =>
      (match parseStrAux (r.length + 1) [] r with
       | some (key, r1) =>
         (match skipWs r1 with
          | ':' :: r2 =>
            (match parseVal fuel r2 with
             | some (v, r3) =>
               (match skipWs r3 with
                | ',' :: r4 =>
                  (match parseMembers fuel r4 with
                   | some (fields, r5) => some ((String.mk key, v) :: fields, r5)
                   | none => none)
                | '\x7d' :: r4 => some ([(String.mk key, v)], r4)
                | _ => none)
             | none => none)
          | _ => none)
       | none => none)
    | _ => none

end

/-- `json.loads` of a whole document: one value, surrounded only by
whitespace.  The fuel `length + 1` always exceeds the nesting depth. -/
def parseJson (cs : List Char) : Option JVal :=
  match parseVal (cs.length + 1) cs with
  | some (v, rest) => if skipWs rest = [] then some v else none
  | none => none

/-! ## `_request_call` (source lines 11-20)

The transport layer is modelled by the outcome the environment supplies
for one `requests.request` call: either a raised `RequestException` or a
response with its status code, reason, final URL and body text.  The
wrapper raises for 4xx/5xx statuses (`raise_for_status`), catches every
`RequestException`, prints `"Error during request: ..."`, and returns
`None`; the second component collects the printed lines. -/

/-- An HTTP response as seen by `requests`. -/
structure HttpResponse where
  status : Nat
  reason : String
  url : String
  body : String
  deriving DecidableEq

/-- What `requests.request` did: raised a `RequestException`, or produced
a response. -/
inductive TransportOutcome where
  | exn (msg : String)
  | resp (response : HttpResponse)
  deriving DecidableEq

/-- The message of the `HTTPError` that `response.raise_for_status()`
raises, if any: client errors for 4xx, server errors for 5xx, nothing
otherwise. -/
def raiseForStatusMsg (r : HttpResponse) : Option String :=
  if 400 ≤ r.status ∧ r.status < 500 then
    some (String.mk (natChars r.status) ++ " Client Error: " ++ r.reason ++ " for url: " ++ r.url)
  else if 500 ≤ r.status ∧ r.status < 600 then
    some (String.mk (natChars r.status) ++ " Server Error: " ++ r.reason ++ " for url: " ++ r.url)
  else none

/-- `_request_call(method, url, headers, data)`: the returned
`Response | None` together with the lines printed. -/
def _request_call (outcome : TransportOutcome) : Option HttpResponse × List String :=
  match outcome with
  | .exn msg => (none, ["Error during request: " ++ msg])
  | .resp r =>
    match raiseForStatusMsg r with
    | some msg => (none, ["Error during request: " ++ msg])
    | none => (some r, [])

/-- Truthiness of a `requests` response (`Response.__bool__` is
`Response.ok`): true unless `raise_for_status` would raise. -/
def respOk (r : HttpResponse) : Bool := (raiseForStatusMsg r).isNone

/-- `response.json()`: `json.loads` of the body text; a body that is not
valid JSON raises `json.JSONDecodeError` (a `ValueError`). -/
def responseJson (r : HttpResponse) : Except PyErr JVal :=
  match parseJson r.body.toList with
  | some v => .ok v
  | none => .error (.valueError "Expecting value")

/-- `response.json().get(key, default)`: dict lookup with a default; a
non-object JSON body has no `.get` attribute. -/
def dictGetJson (v : JVal) (key : String) (default : JVal) : Except PyErr JVal :=
  match v with
  | .obj fields => .ok ((jlookup fields key).getD default)
  | _ => .error (.attributeError "get")

/-! ## `get_tags` (lines 23-40) and `get_tag_context` (lines 43-51)

Each client performs one wrapped POST; `browse` (resp. `context`) is the
transport outcome the environment supplies for it.  The URL and payload
construction of lines 24-35 and 44-46 only feed the network call and do
not influence the value computed from the outcome. -/

/-- `get_tags(...)`: `response.json().get("tags", [])` when the wrapper
returns a (truthy) response, `[]` otherwise.  First component: the
returned value, or the exception raised; second: the printed lines. -/
def get_tags (browse : TransportOutcome) : Except PyErr JVal × List String :=
  match _request_call browse with
  | (some r, msgs) =>
    if respOk r then
      (match responseJson r with
       | .ok body => (dictGetJson body "tags" (.arr []), msgs)
       | .error e => (.error e, msgs))
    else (.ok (.arr []), msgs)
  | (none, msgs) => (.ok (.arr []), msgs)

/-- `get_tag_context(...)`: `response.json().get("data", [])` when the
wrapper returns a (truthy) response, `[]` otherwise. -/
def get_tag_context (context : TransportOutcome) : Except PyErr JVal × List String :=
  match _request_call context with
  | (some r, msgs) =>
    if respOk r then
      (match responseJson r with
       | .ok body => (dictGetJson body "data" (.arr []), msgs)
       | .error e => (.error e, msgs))
    else (.ok (.arr []), msgs)
  | (none, msgs) => (.ok (.arr []), msgs)

/-! ## `main` (source lines 102-119) -/

/-- The observable effects of one `main` run. -/
structure RunResult where
  /-- Whether the `getTagContext` endpoint was called at all. -/
  contextRequested : Bool
  /-- The file contents written, if any output file was created. -/
  written : Option (List Char)
  /-- Every line printed, in order. -/
  printed : List String
  deriving DecidableEq

/-- The format dispatch of lines 109-114: an `if/elif` chain with no
`else`, so an unrecognized `output_format` writes nothing. -/
def formatStep (output_format : String) (data : JVal) : Except PyErr (Option (List Char)) :=
  if output_format = "csv" then (save_to_csv data).map some
  else if output_format = "txt" then (save_to_txt data).map some
  else if output_format = "json" then (save_to_json data).map some
  else .ok none

/-- The success line of line 115. -/
def savedMessage (output_file output_format : String) : String :=
  "Data saved to " ++ output_file ++ " in " ++ output_format ++ " format."

/-- `main(canary, ..., output_format, output_file)`: discovery, then -- if
any tags -- context fetch, then -- if any data -- format dispatch and the
success line; uncaught Python exceptions abort the run.  (Named `main'`
because Lean reserves `main` for executable entry points.) -/
def main' (browse context : TransportOutcome) (output_format output_file : String) :
    Except PyErr RunResult :=
  match get_tags browse with
  | (tagsE, msgs1) =>
    match tagsE with
    | .error e => .error e
    | .ok tags =>
      if pyTruthy tags then
        match get_tag_context context with
        | (dataE, msgs2) =>
          match dataE with
          | .error e => .error e
          | .ok data =>
            if pyTruthy data then
              match formatStep output_format data with
              | .ok written =>
                .ok ⟨true, written, msgs1 ++ msgs2 ++ [savedMessage output_file output_format]⟩
              | .error e => .error e
            else
              .ok ⟨true, none, msgs1 ++ msgs2 ++ ["No data returned in the tag context."]⟩
      else
        .ok ⟨false, none, msgs1 ++ ["No tags found."]⟩

/-! ## Auxiliary definitions used only by the statements and proofs -/

/-- The row dicts of every record, in order (`csvRows` without the final
row rendering); used to state per-record properties of the CSV output. -/
def csvCellsList : List JVal → Except PyErr (List (List (Option JVal)))
  | [] => .ok []
  | item :: rest => do
    let cells ← csvCells item
    let rest' ← csvCellsList rest
    .ok (cells :: rest')

/-- The text blocks of every record, in order (`txtItems` without the
blank-line separators). -/
def txtBlocksList : List JVal → Except PyErr (List (List Char))
  | [] => .ok []
  | item :: rest => do
    let block ← txtBlock item
    let rest' ← txtBlocksList rest
    .ok (block :: rest')

/-- Whether `pat` is a prefix of `l` (by character equality). -/
def startsWithCL : List Char → List Char → Bool
  | [], _ => true
  | _ :: _, [] => false
  | p :: ps, c :: cs => p = c && startsWithCL ps cs

/-- Whether `pat` occurs as a contiguous substring of `l`. -/
def occursIn (pat : List Char) : List Char → Bool
  | [] => startsWithCL pat []
  | c :: cs => startsWithCL pat (c :: cs) || occursIn pat cs

mutual

/-- A sufficient parsing fuel for a value: any fuel at least this large
lets `parseVal` reconstruct the value from its serialization. -/
def needVal : JVal → Nat
  | .null => 1
  | .bool _ => 1
  | .num _ => 1
  | .str _ => 1
  | .arr elems => 1 + needElems elems
  | .obj fields => 1 + needMembers fields

/-- Sufficient fuel for `parseElems` on a serialized element list. -/
def needElems : List JVal → Nat
  | [] => 0
  | x :: elems => 1 + max (needVal x) (needElems elems)

/-- Sufficient fuel for `parseMembers` on a serialized member list. -/
def needMembers : List (String × JVal) → Nat
  | [] => 0
  | (_, v) :: fields => 1 + max (needVal v) (needMembers fields)

end

/-! ## Basic lemmas -/

theorem exceptBindOk {ε α β : Type} (a : α) (f : α → Except ε β) :
    (Except.ok a : Except ε α) >>= f = f a := rfl

theorem exceptBindError {ε α β : Type} (e : ε) (f : α → Except ε β) :
    (Except.error e : Except ε α) >>= f = .error e := rfl

theorem exceptMapOk {ε α β : Type} (a : α) (f : α → β) :
    (Except.ok a : Except ε α).map f = .ok (f a) := rfl

attribute [simp] exceptBindOk exceptBindError exceptMapOk

example : save_to_txt (.arr [.obj [("tagName", .str "T"), ("tagContext", .obj [])]]) =
    .ok ("TagName: T\n  HistorianItemId: None\n  SourceItemId: None\n  OldestTimeStamp: None\n  LatestTimeStamp: None\n\n".toList) := by
  decide

example : save_to_csv (.arr [.obj [("tagName", .str "T"), ("tagContext", .obj [("sourceItemId", .str "s1")])]]) =
    .ok ("tagName,historianItemId,sourceItemId,oldestTimeStamp,latestTimeStamp\r\nT,,s1,,\r\n".toList) := by
  decide

/-- If the wrapper hands a response to a client, `raise_for_status` did not
raise on it, so the response is truthy. -/
theorem requestCall_some_ok (o : TransportOutcome) (r : HttpResponse)
    (h : (_request_call o).1 = some r) : respOk r = true := by
  cases o with
  | exn m => simp [_request_call] at h
  | resp r' =>
    cases hm : raiseForStatusMsg r' with
    | some m => simp [_request_call, hm] at h
    | none =>
      simp [_request_call, hm] at h
      subst h
      simp [respOk, hm]

/-- **C3**: whenever tag discovery returns an empty sequence, `main` never
calls the `getTagContext` endpoint, writes no output file, and reports
`"No tags found."`. -/
theorem c3_empty_discovery (browse context : TransportOutcome)
    (output_format output_file : String)
    (h : (get_tags browse).1 = .ok (JVal.arr [])) :
    main' browse context output_format output_file =
      .ok ⟨false, none, (get_tags browse).2 ++ ["No tags found."]⟩ := by
  rcases hgt : get_tags browse with ⟨tagsE, msgs⟩
  rw [hgt] at h
  obtain rfl : tagsE = .ok (JVal.arr []) := h
  simp [main', hgt, pyTruthy]

/-- Witness for C3 at a concrete run: the discovery call times out, so
`get_tags` yields `[]` and `main` stops with `"No tags found."`. -/
theorem c3_empty_discovery_witness :
    (get_tags (.exn "connection timed out")).1 = .ok (JVal.arr []) ∧
    main' (.exn "connection timed out") (.exn "unreached") "csv" "out.csv" =
      .ok ⟨false, none,
        (get_tags (.exn "connection timed out")).2 ++ ["No tags found."]⟩ :=
  ⟨by decide, c3_empty_discovery _ _ _ _ (by decide)⟩

/-- **C4**: when discovery returns a non-empty tag list but the context
fetch returns an empty sequence, no output file is written and `main`
reports `"No data returned in the tag context."`. -/
theorem c4_empty_context (browse context : TransportOutcome)
    (output_format output_file : String) (tags : List JVal)
    (htags : (get_tags browse).1 = .ok (.arr tags)) (hne : tags ≠ [])
    (hctx : (get_tag_context context).1 = .ok (JVal.arr [])) :
    main' browse context output_format output_file =
      .ok ⟨true, none, (get_tags browse).2 ++ (get_tag_context context).2 ++
        ["No data returned in the tag context."]⟩ := by
  rcases hgt : get_tags browse with ⟨tagsE, msgs1⟩
  rw [hgt] at htags
  obtain rfl : tagsE = .ok (.arr tags) := htags
  rcases hgc : get_tag_context context with ⟨dataE, msgs2⟩
  rw [hgc] at hctx
  obtain rfl : dataE = .ok (JVal.arr []) := hctx
  cases tags with
  | nil => exact absurd rfl hne
  | cons t ts => simp [main', hgt, hgc, pyTruthy]

/-- Witness for C4 at a concrete run: one tag is discovered, the context
response carries an empty `data` array. -/
theorem c4_empty_context_witness :
    (get_tags (.resp ⟨200, "OK", "https://h/api/v2/browseTags",
        "\x7b\"tags\": [\"Tag1.PV\"]\x7d"⟩)).1 = .ok (.arr [.str "Tag1.PV"]) ∧
    (get_tag_context (.resp ⟨200, "OK", "https://h/api/v2/getTagContext",
        "\x7b\"data\": []\x7d"⟩)).1 = .ok (JVal.arr []) ∧
    main' (.resp ⟨200, "OK", "https://h/api/v2/browseTags", "\x7b\"tags\": [\"Tag1.PV\"]\x7d"⟩)
        (.resp ⟨200, "OK", "https://h/api/v2/getTagContext", "\x7b\"data\": []\x7d"⟩)
        "csv" "out.csv" =
      .ok ⟨true, none, [] ++ [] ++ ["No data returned in the tag context."]⟩ :=
  ⟨by decide, by decide,
    c4_empty_context _ _ _ _ [.str "Tag1.PV"] (by decide) (by decide) (by decide)⟩

/-- **C10**: with non-empty discovery and context results but an
`output_format` outside `csv`/`txt`/`json`, `main` writes no file yet still
prints the success line. -/
theorem c10_unknown_format (browse context : TransportOutcome)
    (output_format output_file : String) (tags data : List JVal)
    (htags : (get_tags browse).1 = .ok (.arr tags)) (hts : tags ≠ [])
    (hdata : (get_tag_context context).1 = .ok (.arr data)) (hds : data ≠ [])
    (hcsv : output_format ≠ "csv") (htxt : output_format ≠ "txt")
    (hjson : output_format ≠ "json") :
    main' browse context output_format output_file =
      .ok ⟨true, none, (get_tags browse).2 ++ (get_tag_context context).2 ++
        [savedMessage output_file output_format]⟩ := by
  rcases hgt : get_tags browse with ⟨tagsE, msgs1⟩
  rw [hgt] at htags
  obtain rfl : tagsE = .ok (.arr tags) := htags
  rcases hgc : get_tag_context context with ⟨dataE, msgs2⟩
  rw [hgc] at hdata
  obtain rfl : dataE = .ok (.arr data) := hdata
  cases tags with
  | nil => exact absurd rfl hts
  | cons t ts =>
    cases data with
    | nil => exact absurd rfl hds
    | cons d ds => simp [main', hgt, hgc, pyTruthy, formatStep, hcsv, htxt, hjson]

/-- Witness for C10 at a concrete run with `output_format = "xml"`. -/
theorem c10_unknown_format_witness :
    main' (.resp ⟨200, "OK", "https://h/api/v2/browseTags", "\x7b\"tags\": [\"Tag1.PV\"]\x7d"⟩)
        (.resp ⟨200, "OK", "https://h/api/v2/getTagContext", "\x7b\"data\": [\"d\"]\x7d"⟩)
        "xml" "out.xml" =
      .ok ⟨true, none, [] ++ [] ++ [savedMessage "out.xml" "xml"]⟩ :=
  c10_unknown_format _ _ _ _ [.str "Tag1.PV"] [.str "d"]
    (by decide) (by decide) (by decide) (by decide)
    (by decide) (by decide) (by decide)

/-- **C5** (amended): `_request_call` catches every transport exception and
every 4xx/5xx status, prints one `"Error during request: ..."` line and
returns `None`; for any other status -- including non-2xx statuses below
400 or at 600 and above -- it returns the response object. -/
theorem c5_wrapper_behavior (msg : String) (r : HttpResponse) :
    _request_call (.exn msg) = (none, ["Error during request: " ++ msg]) ∧
    (400 ≤ r.status ∧ r.status < 600 →
      _request_call (.resp r) =
        (none, ["Error during request: " ++ (raiseForStatusMsg r).getD ""])) ∧
    (r.status < 400 ∨ 600 ≤ r.status → _request_call (.resp r) = (some r, [])) := by
  refine ⟨rfl, ?_, ?_⟩
  · rintro ⟨h1, h2⟩
    by_cases h : 400 ≤ r.status ∧ r.status < 500
    · simp [_request_call, raiseForStatusMsg, h]
    · have h' : 500 ≤ r.status ∧ r.status < 600 := by omega
      simp [_request_call, raiseForStatusMsg, h, h']
  · intro h
    have h1 : ¬(400 ≤ r.status ∧ r.status < 500) := by rcases h with h | h <;> omega
    have h2 : ¬(500 ≤ r.status ∧ r.status < 600) := by rcases h with h | h <;> omega
    simp [_request_call, raiseForStatusMsg, h1, h2]

/-- Witness for C5: a 404 is caught and converted to `None` plus one
message; a 200 is returned. -/
theorem c5_wrapper_behavior_witness :
    _request_call (.resp ⟨404, "Not Found", "https://h/api/v2/browseTags", ""⟩) =
      (none, ["Error during request: " ++
        (raiseForStatusMsg ⟨404, "Not Found", "https://h/api/v2/browseTags", ""⟩).getD ""]) ∧
    _request_call (.resp ⟨200, "OK", "https://h/api/v2/browseTags", "\x7b\x7d"⟩) =
      (some ⟨200, "OK", "https://h/api/v2/browseTags", "\x7b\x7d"⟩, []) :=
  ⟨(c5_wrapper_behavior "e" _).2.1 (by decide),
   (c5_wrapper_behavior "e" _).2.2 (by decide)⟩

/-- **C5** counterexample to the claim as stated: status 304 is not in the
2xx success range, yet the wrapper returns the response object rather than
the null sentinel (`raise_for_status` only raises for 4xx/5xx). -/
theorem c5_status_304_returned :
    (_request_call (.resp ⟨304, "Not Modified", "https://h/api/v2/browseTags", ""⟩)).1 =
      some ⟨304, "Not Modified", "https://h/api/v2/browseTags", ""⟩ := by decide

/-- **C7**: `get_tags` yields `[]` when the wrapper fails or when the JSON
response object lacks the `tags` member, and yields the member's value
unchanged when present. -/
theorem c7_get_tags_soft_fail (browse : TransportOutcome) :
    ((_request_call browse).1 = none → (get_tags browse).1 = .ok (JVal.arr [])) ∧
    (∀ r fields, (_request_call browse).1 = some r →
      parseJson r.body.toList = some (.obj fields) →
      (jlookup fields "tags" = none → (get_tags browse).1 = .ok (JVal.arr [])) ∧
      (∀ v, jlookup fields "tags" = some v → (get_tags browse).1 = .ok v)) := by
  constructor
  · intro h
    rcases hrc : _request_call browse with ⟨ro, msgs⟩
    rw [hrc] at h
    obtain rfl : ro = none := h
    simp [get_tags, hrc]
  · intro r fields hr hb
    have hok : respOk r = true := requestCall_some_ok browse r hr
    have hb' : parseJson r.body.data = some (.obj fields) := hb
    rcases hrc : _request_call browse with ⟨ro, msgs⟩
    rw [hrc] at hr
    obtain rfl : ro = some r := hr
    constructor
    · intro hnone
      simp [get_tags, hrc, hok, responseJson, hb', dictGetJson, hnone]
    · intro v hsome
      simp [get_tags, hrc, hok, responseJson, hb', dictGetJson, hsome]

/-- Witness for C7: a failed call yields `[]`; a response without `tags`
yields `[]`; a response with `tags` yields it unchanged. -/
theorem c7_get_tags_soft_fail_witness :
    (get_tags (.exn "connection refused")).1 = .ok (JVal.arr []) ∧
    (get_tags (.resp ⟨200, "OK", "u", "\x7b\"other\": 1\x7d"⟩)).1 = .ok (JVal.arr []) ∧
    (get_tags (.resp ⟨200, "OK", "u", "\x7b\"tags\": [\"a\", \"b\"]\x7d"⟩)).1 =
      .ok (.arr [.str "a", .str "b"]) :=
  ⟨(c7_get_tags_soft_fail (.exn "connection refused")).1 (by decide),
   ((c7_get_tags_soft_fail _).2 ⟨200, "OK", "u", "\x7b\"other\": 1\x7d"⟩
      [("other", .num 1)] (by decide) (by decide)).1 (by decide),
   ((c7_get_tags_soft_fail _).2 ⟨200, "OK", "u", "\x7b\"tags\": [\"a\", \"b\"]\x7d"⟩
      [("tags", .arr [.str "a", .str "b"])] (by decide) (by decide)).2
      (.arr [.str "a", .str "b"]) (by decide)⟩

/-- A failing record aborts the CSV loop: the rows before it serialize,
then its exception propagates. -/
theorem csvRows_error (pre : List JVal) (rows : List Char)
    (hpre : csvRows pre = .ok rows) (bad : JVal) (rest : List JVal) (e : PyErr)
    (hbad : csvRowOf bad = .error e) :
    csvRows (pre ++ bad :: rest) = .error e := by
  induction pre generalizing rows with
  | nil => simp [csvRows, hbad]
  | cons p ps ih =>
    rcases hrow : csvRowOf p with e' | row
    · simp [csvRows, hrow] at hpre
    · simp only [csvRows, hrow, exceptBindOk] at hpre
      rcases hx : csvRows ps with e'' | rows'
      · rw [hx] at hpre; simp at hpre
      · simp [List.cons_append, csvRows, hrow, ih rows' hx]

/-- A failing record aborts the text loop likewise. -/
theorem txtItems_error (pre : List JVal) (blocks : List Char)
    (hpre : txtItems pre = .ok blocks) (bad : JVal) (rest : List JVal) (e : PyErr)
    (hbad : txtBlock bad = .error e) :
    txtItems (pre ++ bad :: rest) = .error e := by
  induction pre generalizing blocks with
  | nil => simp [txtItems, hbad]
  | cons p ps ih =>
    rcases hblock : txtBlock p with e' | block
    · simp [txtItems, hblock] at hpre
    · simp only [txtItems, hblock, exceptBindOk] at hpre
      rcases hx : txtItems ps with e'' | blocks'
      · rw [hx] at hpre; simp at hpre
      · simp [List.cons_append, txtItems, hblock, ih blocks' hx]

/-- **C9**: a record carrying `tagName` but lacking the `tagContext` key
entirely makes `save_to_csv` and `save_to_txt` raise a `KeyError` instead
of rendering empty values, wherever the record sits after well-formed
ones. -/
theorem c9_missing_tagcontext_keyerror (pre : List JVal)
    (fields : List (String × JVal)) (rest : List JVal) (t : JVal)
    (hname : jlookup fields "tagName" = some t)
    (hctx : jlookup fields "tagContext" = none)
    (rowsPre : List Char) (hpre : csvRows pre = .ok rowsPre)
    (blocksPre : List Char) (hpre' : txtItems pre = .ok blocksPre) :
    save_to_csv (.arr (pre ++ .obj fields :: rest)) = .error (.keyError "tagContext") ∧
    save_to_txt (.arr (pre ++ .obj fields :: rest)) = .error (.keyError "tagContext") := by
  have hrow : csvRowOf (.obj fields) = .error (.keyError "tagContext") := by
    simp [csvRowOf, csvCells, jIndex, hctx]
  have hblock : txtBlock (.obj fields) = .error (.keyError "tagContext") := by
    simp [txtBlock, jIndex, hname, hctx]
  refine ⟨?_, ?_⟩
  · simp [save_to_csv, csvRows_error pre rowsPre hpre _ rest _ hrow]
  · simp [save_to_txt, txtItems_error pre blocksPre hpre' _ rest _ hblock]

/-- Witness for C9: a record with only `tagName` makes both row-oriented
formatters fail with `KeyError: tagContext`. -/
theorem c9_missing_tagcontext_keyerror_witness :
    save_to_csv (.arr ([] ++ .obj [("tagName", .str "T")] :: [])) =
      .error (.keyError "tagContext") ∧
    save_to_txt (.arr ([] ++ .obj [("tagName", .str "T")] :: [])) =
      .error (.keyError "tagContext") :=
  c9_missing_tagcontext_keyerror [] [("tagName", .str "T")] [] (.str "T")
    (by decide) (by decide) [] (by decide) [] (by decide)

/-- **C2** counterexample to the claim as stated: for a record whose
context lacks `sourceItemId`, the JSON output neither mentions the field
nor contains any `null` or empty-string rendering for it -- the record is
passed through with the field simply absent. -/
theorem c2_json_omits_absent_field :
    save_to_json (.arr [.obj [("tagName", .str "Tag2.PV"),
        ("tagContext", .obj [("historianItemId", .str "h2")])]]) =
      .ok (dumpVal 0 (.arr [.obj [("tagName", .str "Tag2.PV"),
        ("tagContext", .obj [("historianItemId", .str "h2")])]])) ∧
    occursIn "sourceItemId".toList
      (dumpVal 0 (.arr [.obj [("tagName", .str "Tag2.PV"),
        ("tagContext", .obj [("historianItemId", .str "h2")])]])) = false ∧
    occursIn "null".toList
      (dumpVal 0 (.arr [.obj [("tagName", .str "Tag2.PV"),
        ("tagContext", .obj [("historianItemId", .str "h2")])]])) = false := by
  decide

/-- **C2** (amended): on records whose nested context object lacks any of
the four context fields, none of the three formatters crashes; the CSV
writer renders each missing field as an empty cell, the text writer
renders it as `None`, and the JSON writer passes the record through
unchanged, leaving the absent field absent. -/
theorem c2_missing_fields_render (t : String) (ctx : List (String × JVal)) (f : String)
    (_hf : f = "historianItemId" ∨ f = "sourceItemId" ∨
          f = "oldestTimeStamp" ∨ f = "latestTimeStamp")
    (hmiss : jlookup ctx f = none) :
    (save_to_csv (.arr [.obj [("tagName", .str t), ("tagContext", .obj ctx)]])).isOk = true ∧
    (save_to_txt (.arr [.obj [("tagName", .str t), ("tagContext", .obj ctx)]])).isOk = true ∧
    (save_to_json (.arr [.obj [("tagName", .str t), ("tagContext", .obj ctx)]])).isOk = true ∧
    csvCell (jlookup ctx f) = [] ∧
    pyStrOpt (jlookup ctx f) = "None".toList ∧
    save_to_json (.arr [.obj [("tagName", .str t), ("tagContext", .obj ctx)]]) =
      .ok (dumpVal 0 (.arr [.obj [("tagName", .str t), ("tagContext", .obj ctx)]])) := by
  refine ⟨?_, ?_, rfl, by simp [hmiss, csvCell], by simp [hmiss, pyStrOpt], rfl⟩
  · simp [save_to_csv, csvRows, csvRowOf, csvCells, jIndex, jlookup, Except.isOk, Except.toBool]
  · simp [save_to_txt, txtItems, txtBlock, jIndex, jlookup, Except.isOk, Except.toBool]

/-- Witness for C2 at the record of the spec's end-to-end scenario:
`Tag2.PV` with `sourceItemId` absent. -/
theorem c2_missing_fields_render_witness :
    (save_to_csv (.arr [.obj [("tagName", .str "Tag2.PV"),
        ("tagContext", .obj [("historianItemId", .str "h2")])]])).isOk = true ∧
    (save_to_txt (.arr [.obj [("tagName", .str "Tag2.PV"),
        ("tagContext", .obj [("historianItemId", .str "h2")])]])).isOk = true ∧
    (save_to_json (.arr [.obj [("tagName", .str "Tag2.PV"),
        ("tagContext", .obj [("historianItemId", .str "h2")])]])).isOk = true ∧
    csvCell (jlookup [("historianItemId", .str "h2")] "sourceItemId") = [] ∧
    pyStrOpt (jlookup [("historianItemId", .str "h2")] "sourceItemId") = "None".toList ∧
    save_to_json (.arr [.obj [("tagName", .str "Tag2.PV"),
        ("tagContext", .obj [("historianItemId", .str "h2")])]]) =
      .ok (dumpVal 0 (.arr [.obj [("tagName", .str "Tag2.PV"),
        ("tagContext", .obj [("historianItemId", .str "h2")])]])) :=
  c2_missing_fields_render "Tag2.PV" [("historianItemId", .str "h2")] "sourceItemId"
    (by decide) (by decide)

/-- `txtBlocksList` produces one block per record. -/
theorem txtBlocksList_length (items : List JVal) (blocks : List (List Char))
    (h : txtBlocksList items = .ok blocks) : blocks.length = items.length := by
  induction items generalizing blocks with
  | nil => simp [txtBlocksList] at h; subst h; rfl
  | cons i is ih =>
    rcases hb : txtBlock i with e | b
    · simp [txtBlocksList, hb] at h
    · simp only [txtBlocksList, hb, exceptBindOk] at h
      rcases hr : txtBlocksList is with e | bs
      · rw [hr] at h; simp at h
      · rw [hr] at h; simp at h; subst h; simp [ih bs hr]

/-- `txtItems` concatenates the blocks, each followed by the blank-line
separator. -/
theorem txtItems_of_blocks (items : List JVal) (blocks : List (List Char))
    (h : txtBlocksList items = .ok blocks) :
    txtItems items = .ok ((blocks.map (· ++ ['\n'])).flatten) := by
  induction items generalizing blocks with
  | nil => simp [txtBlocksList] at h; subst h; simp [txtItems]
  | cons i is ih =>
    rcases hb : txtBlock i with e | b
    · simp [txtBlocksList, hb] at h
    · simp only [txtBlocksList, hb, exceptBindOk] at h
      rcases hr : txtBlocksList is with e | bs
      · rw [hr] at h; simp at h
      · rw [hr] at h; simp at h; subst h
        simp [txtItems, hb, ih bs hr]

/-- Concatenating newline-terminated fragments equals joining them with a
blank separator line and ending with one trailing newline. -/
theorem flatten_newline_terminated (blocks : List (List Char)) (h : blocks ≠ []) :
    (blocks.map (· ++ ['\n'])).flatten = joinSep ['\n'] blocks ++ ['\n'] := by
  induction blocks with
  | nil => exact absurd rfl h
  | cons b bs ih =>
    cases bs with
    | nil => simp [joinSep]
    | cons b2 bs2 =>
      calc ((b :: b2 :: bs2).map (· ++ ['\n'])).flatten
          = (b ++ ['\n']) ++ ((b2 :: bs2).map (· ++ ['\n'])).flatten := by simp
        _ = (b ++ ['\n']) ++ (joinSep ['\n'] (b2 :: bs2) ++ ['\n']) := by rw [ih (by simp)]
        _ = joinSep ['\n'] (b :: b2 :: bs2) ++ ['\n'] := by rw [joinSep]; simp

/-- **C8**: on a non-empty record list, `save_to_txt` writes one block per
record with the labels in the fixed order `TagName`, `HistorianItemId`,
`SourceItemId`, `OldestTimeStamp`, `LatestTimeStamp`, a blank line
separating consecutive blocks, and a trailing newline after the last
block. -/
theorem c8_txt_layout (items : List JVal) (blocks : List (List Char))
    (hb : txtBlocksList items = .ok blocks) (hne : items ≠ []) :
    save_to_txt (.arr items) = .ok (joinSep ['\n'] blocks ++ ['\n']) ∧
    blocks.length = items.length ∧
    (∀ fields t ctx, jlookup fields "tagName" = some t →
      jlookup fields "tagContext" = some (.obj ctx) →
      txtBlock (.obj fields) =
        .ok ("TagName: ".toList ++ pyStr t ++ '\n' ::
             "  HistorianItemId: ".toList ++ pyStrOpt (jlookup ctx "historianItemId") ++ '\n' ::
             "  SourceItemId: ".toList ++ pyStrOpt (jlookup ctx "sourceItemId") ++ '\n' ::
             "  OldestTimeStamp: ".toList ++ pyStrOpt (jlookup ctx "oldestTimeStamp") ++ '\n' ::
             "  LatestTimeStamp: ".toList ++ pyStrOpt (jlookup ctx "latestTimeStamp") ++ ['\n'])) := by
  have hblocksne : blocks ≠ [] := by
    intro hb0
    rw [hb0] at hb
    have := txtBlocksList_length items [] hb
    cases items with
    | nil => exact hne rfl
    | cons i is => simp at this
  refine ⟨?_, txtBlocksList_length items blocks hb, ?_⟩
  · rw [show save_to_txt (.arr items) = txtItems items from rfl,
      txtItems_of_blocks items blocks hb, flatten_newline_terminated blocks hblocksne]
  · intro fields t ctx hn hc
    simp [txtBlock, jIndex, hn, hc]

/-- Witness for C8: the spec's end-to-end scenario records, serialized to
two labelled blocks. -/
theorem c8_txt_layout_witness :
    txtBlocksList [.obj [("tagName", .str "Tag1.PV"),
        ("tagContext", .obj [("historianItemId", .str "h1"), ("sourceItemId", .str "s1")])],
      .obj [("tagName", .str "Tag2.PV"),
        ("tagContext", .obj [("historianItemId", .str "h2")])]] =
      .ok ["TagName: Tag1.PV\n  HistorianItemId: h1\n  SourceItemId: s1\n  OldestTimeStamp: None\n  LatestTimeStamp: None\n".toList,
           "TagName: Tag2.PV\n  HistorianItemId: h2\n  SourceItemId: None\n  OldestTimeStamp: None\n  LatestTimeStamp: None\n".toList] ∧
    save_to_txt (.arr [.obj [("tagName", .str "Tag1.PV"),
        ("tagContext", .obj [("historianItemId", .str "h1"), ("sourceItemId", .str "s1")])],
      .obj [("tagName", .str "Tag2.PV"),
        ("tagContext", .obj [("historianItemId", .str "h2")])]]) =
      .ok (joinSep ['\n']
        ["TagName: Tag1.PV\n  HistorianItemId: h1\n  SourceItemId: s1\n  OldestTimeStamp: None\n  LatestTimeStamp: None\n".toList,
         "TagName: Tag2.PV\n  HistorianItemId: h2\n  SourceItemId: None\n  OldestTimeStamp: None\n  LatestTimeStamp: None\n".toList] ++ ['\n']) :=
  ⟨by decide, (c8_txt_layout _ _ (by decide) (by decide)).1⟩

/-- `csvCellsList` produces one row dict per record. -/
theorem csvCellsList_length (items : List JVal) (cellss : List (List (Option JVal)))
    (h : csvCellsList items = .ok cellss) : cellss.length = items.length := by
  induction items generalizing cellss with
  | nil => simp [csvCellsList] at h; subst h; rfl
  | cons i is ih =>
    rcases hc : csvCells i with e | cs
    · simp [csvCellsList, hc] at h
    · simp only [csvCellsList, hc, exceptBindOk] at h
      rcases hr : csvCellsList is with e | css
      · rw [hr] at h; simp at h
      · rw [hr] at h; simp at h; subst h; simp [ih css hr]

/-- `csvRows` renders exactly the rows of `csvCellsList`, in order. -/
theorem csvRows_of_cells (items : List JVal) (cellss : List (List (Option JVal)))
    (h : csvCellsList items = .ok cellss) :
    csvRows items = .ok ((cellss.map csvRowOfCells).flatten) := by
  induction items generalizing cellss with
  | nil => simp [csvCellsList] at h; subst h; simp [csvRows]
  | cons i is ih =>
    rcases hc : csvCells i with e | cs
    · simp [csvCellsList, hc] at h
    · simp only [csvCellsList, hc, exceptBindOk] at h
      rcases hr : csvCellsList is with e | css
      · rw [hr] at h; simp at h
      · rw [hr] at h; simp at h; subst h
        simp [csvRows, csvRowOf, hc, ih css hr]

/-- Quoting a field introduces no character except the quote itself. -/
theorem csvField_not_mem {c : Char} {s : List Char} (hq : c ≠ '"') (h : c ∉ s) :
    c ∉ csvField s := by
  intro hmem
  unfold csvField at hmem
  split at hmem
  · rcases List.mem_cons.mp hmem with h1 | h1
    · exact hq h1
    · rcases List.mem_append.mp h1 with h2 | h2
      · rcases List.mem_flatMap.mp h2 with ⟨a, ha, hc2⟩
        by_cases ha2 : a = '"'
        · simp [ha2] at hc2; exact hq hc2
        · simp [ha2] at hc2; subst hc2; exact h ha
      · simp at h2; exact hq h2
  · exact h hmem

/-- A separator-joined list contains no character outside its parts and
the separator. -/
theorem joinSep_not_mem {c : Char} {sep : List Char} (hsep : c ∉ sep)
    (parts : List (List Char)) (h : ∀ p ∈ parts, c ∉ p) : c ∉ joinSep sep parts := by
  induction parts with
  | nil => simp [joinSep]
  | cons p ps ih =>
    cases ps with
    | nil => simpa [joinSep] using h p (by simp)
    | cons p2 ps2 =>
      intro hmem
      rw [joinSep] at hmem
      rcases List.mem_append.mp hmem with h1 | h1
      · rcases List.mem_append.mp h1 with h2 | h2
        · exact h p (by simp) h2
        · exact hsep h2
      · exact ih (fun q hq => h q (by simp [hq])) h1

/-- A row whose rendered cells carry no newline characters contributes
exactly one `\n` (its `\r\n` terminator). -/
theorem csvRow_count_newline (cells : List (Option JVal))
    (h : ∀ v ∈ cells, '\n' ∉ csvCell v ∧ '\r' ∉ csvCell v) :
    (csvRowOfCells cells).count '\n' = 1 := by
  have hjoin : '\n' ∉ joinSep [','] (cells.map fun c => csvField (csvCell c)) := by
    apply joinSep_not_mem (by decide)
    intro p hp
    rcases List.mem_map.mp hp with ⟨v, hv, rfl⟩
    exact csvField_not_mem (by decide) (h v hv).1
  unfold csvRowOfCells
  rw [List.count_append, List.count_eq_zero.mpr hjoin]
  decide

/-- Newline count of the concatenated data rows: one per row. -/
theorem csvRows_count_newline (cellss : List (List (Option JVal)))
    (hnl : ∀ cells ∈ cellss, ∀ v ∈ cells, '\n' ∉ csvCell v ∧ '\r' ∉ csvCell v) :
    ((cellss.map csvRowOfCells).flatten).count '\n' = cellss.length := by
  induction cellss with
  | nil => simp
  | cons cs css ih =>
    simp only [List.map_cons, List.flatten_cons, List.count_append]
    rw [csvRow_count_newline cs (hnl cs (by simp)),
      ih (fun c hc => hnl c (by simp [hc]))]
    simp only [List.length_cons]
    omega

/-- **C6**: for record lists whose rendered fields contain no newline
characters, `save_to_csv` writes the fixed header row followed by exactly
one `\r\n`-terminated row per record, so the file has exactly
`len(tags) + 1` lines. -/
theorem c6_csv_shape (items : List JVal) (cellss : List (List (Option JVal)))
    (hcells : csvCellsList items = .ok cellss)
    (hnl : ∀ cells ∈ cellss, ∀ v ∈ cells, '\n' ∉ csvCell v ∧ '\r' ∉ csvCell v) :
    save_to_csv (.arr items) = .ok (csvHeader ++ (cellss.map csvRowOfCells).flatten) ∧
    csvHeader = "tagName,historianItemId,sourceItemId,oldestTimeStamp,latestTimeStamp\r\n".toList ∧
    cellss.length = items.length ∧
    (csvHeader ++ (cellss.map csvRowOfCells).flatten).count '\n' = items.length + 1 := by
  refine ⟨by simp [save_to_csv, csvRows_of_cells items cellss hcells], by decide,
    csvCellsList_length items cellss hcells, ?_⟩
  rw [List.count_append, csvRows_count_newline cellss hnl,
    csvCellsList_length items cellss hcells, show csvHeader.count '\n' = 1 by decide]
  omega

/-- Witness for C6: the spec's end-to-end scenario -- two records, the
second missing `sourceItemId` -- yields a three-line CSV file. -/
theorem c6_csv_shape_witness :
    csvCellsList [.obj [("tagName", .str "Tag1.PV"),
        ("tagContext", .obj [("historianItemId", .str "h1"), ("sourceItemId", .str "s1")])],
      .obj [("tagName", .str "Tag2.PV"),
        ("tagContext", .obj [("historianItemId", .str "h2")])]] =
      .ok [[some (.str "Tag1.PV"), some (.str "h1"), some (.str "s1"), none, none],
           [some (.str "Tag2.PV"), some (.str "h2"), none, none, none]] ∧
    save_to_csv (.arr [.obj [("tagName", .str "Tag1.PV"),
        ("tagContext", .obj [("historianItemId", .str "h1"), ("sourceItemId", .str "s1")])],
      .obj [("tagName", .str "Tag2.PV"),
        ("tagContext", .obj [("historianItemId", .str "h2")])]]) =
      .ok (csvHeader ++
        (([[some (.str "Tag1.PV"), some (.str "h1"), some (.str "s1"), none, none],
           [some (.str "Tag2.PV"), some (.str "h2"), none, none, none]].map csvRowOfCells).flatten)) ∧
    (csvHeader ++
        (([[some (.str "Tag1.PV"), some (.str "h1"), some (.str "s1"), none, none],
           [some (.str "Tag2.PV"), some (.str "h2"), none, none, none]].map csvRowOfCells).flatten)).count '\n' = 2 + 1 := by
  have h := c6_csv_shape
    [.obj [("tagName", .str "Tag1.PV"),
        ("tagContext", .obj [("historianItemId", .str "h1"), ("sourceItemId", .str "s1")])],
      .obj [("tagName", .str "Tag2.PV"),
        ("tagContext", .obj [("historianItemId", .str "h2")])]]
    [[some (.str "Tag1.PV"), some (.str "h1"), some (.str "s1"), none, none],
     [some (.str "Tag2.PV"), some (.str "h2"), none, none, none]]
    (by decide) (by decide)
  exact ⟨by decide, h.1, h.2.2.2⟩

/-! ## Character-level facts for the JSON round trip -/

/-- Rebuilding a string from its character list is the identity. -/
theorem stringMk_data (s : String) : String.mk s.data = s := rfl

/-- `Char.ofNat` at a valid code point has that code point. -/
theorem charToNat_ofNat {n : Nat} (h : n.isValidChar) : (Char.ofNat n).toNat = n := by
  unfold Char.ofNat
  rw [dif_pos h]
  rfl

/-- Every character's code point avoids the UTF-16 surrogate range. -/
theorem char_valid_nat (c : Char) :
    c.toNat < 55296 ∨ (57344 ≤ c.toNat ∧ c.toNat < 1114112) := by
  have h := c.valid
  unfold UInt32.isValidChar Nat.isValidChar at h
  unfold Char.toNat
  omega

/-- A digit character is not whitespace nor a closing bracket or brace. -/
theorem digit_head_facts {c : Char} (h : c.isDigit = true) :
    isJsonWs c = false ∧ c ≠ ']' ∧ c ≠ '\x7d' ∧ c ≠ ',' := by
  simp only [Char.isDigit, Bool.and_eq_true, decide_eq_true_eq] at h
  obtain ⟨h1, h2⟩ := h
  refine ⟨?_, ?_, ?_, ?_⟩
  · simp only [isJsonWs, Bool.or_eq_false_iff, decide_eq_false_iff_not]
    refine ⟨⟨⟨?_, ?_⟩, ?_⟩, ?_⟩ <;> (intro hc; subst hc; revert h1 h2; decide)
  · intro hc; subst hc; revert h1 h2; decide
  · intro hc; subst hc; revert h1 h2; decide
  · intro hc; subst hc; revert h1 h2; decide

theorem skipWs_cons_not_ws {c : Char} {cs : List Char} (h : isJsonWs c = false) :
    skipWs (c :: cs) = c :: cs := by
  simp [skipWs, h]

theorem skipWs_append_ws {ws : List Char} (h : ∀ c ∈ ws, isJsonWs c = true)
    (cs : List Char) : skipWs (ws ++ cs) = skipWs cs := by
  induction ws with
  | nil => rfl
  | cons w ws' ih =>
    have hw : isJsonWs w = true := h w (by simp)
    simp only [List.cons_append, skipWs, hw, if_true]
    exact ih (fun c hc => h c (by simp [hc]))

theorem skipWs_nspaces (n : Nat) (cs : List Char) :
    skipWs (nspaces n ++ cs) = skipWs cs := by
  apply skipWs_append_ws
  intro c hc
  rw [List.eq_of_mem_replicate hc]
  decide

theorem skipWs_newline_nspaces (n : Nat) (cs : List Char) :
    skipWs ('\n' :: (nspaces n ++ cs)) = skipWs cs := by
  have : isJsonWs '\n' = true := by decide
  simp only [skipWs, this, if_true]
  exact skipWs_nspaces n cs

/-- The first character a whitespace skip can expose: either the head was
whitespace, or it is the head of the result. -/
theorem head_of_skipWs {tail out : List Char} (h : skipWs tail = out) :
    ∀ c, tail.head? = some c → isJsonWs c = true ∨ out.head? = some c := by
  cases tail with
  | nil => intro c hc; simp at hc
  | cons t ts =>
    intro c hc
    simp only [List.head?_cons, Option.some.injEq] at hc
    by_cases hw : isJsonWs t = true
    · exact .inl (hc ▸ hw)
    · right
      rw [skipWs_cons_not_ws (by simpa using hw)] at h
      rw [← h, ← hc]
      rfl

/-- A sequence whose whitespace skip starts with a non-digit also starts
with a non-digit. -/
theorem head_not_digit_of_skipWs {tail out : List Char} {d : Char}
    (h : skipWs tail = d :: out) (hd : d.isDigit = false) :
    ∀ c, tail.head? = some c → c.isDigit = false := by
  intro c hc
  rcases head_of_skipWs h c hc with hw | hh
  · simp only [isJsonWs, Bool.or_eq_true, decide_eq_true_eq] at hw
    rcases hw with ((rfl | rfl) | rfl) | rfl <;> decide
  · simp at hh
    subst hh
    exact hd

theorem hexVal_hexDigitChar {d : Nat} (h : d < 16) :
    hexVal (hexDigitChar d) = some d := by
  interval_cases d <;> decide

theorem decDigitChar_isDigit {d : Nat} (h : d < 10) :
    (decDigitChar d).isDigit = true := by
  interval_cases d <;> decide

theorem decDigitChar_toNat {d : Nat} (h : d < 10) :
    (decDigitChar d).toNat = 48 + d := by
  interval_cases d <;> decide


/-- One string-parser step: the closing quote. -/
theorem psa_quote (fuel : Nat) (acc rest : List Char) :
    parseStrAux (fuel + 1) acc ('"' :: rest) = some (acc.reverse, rest) := rfl

/-- One string-parser step: a `\uXXXX` escape outside the surrogate range. -/
theorem psa_u (fuel : Nat) (acc body r : List Char) (n : Nat)
    (hpu : parseUHex body = some (n, r)) (hcond : n < 55296 ∨ 57344 ≤ n) :
    parseStrAux (fuel + 1) acc ('\\' :: 'u' :: body) =
      parseStrAux fuel (Char.ofNat n :: acc) r := by
  simp only [parseStrAux, hpu]
  rw [if_pos hcond]

/-- One string-parser step: a high surrogate followed by a low surrogate. -/
theorem psa_u_pair (fuel : Nat) (acc body r2 r3 : List Char) (n m : Nat)
    (hpu : parseUHex body = some (n, '\\' :: 'u' :: r2))
    (hc1 : ¬(n < 55296 ∨ 57344 ≤ n)) (hc2 : n < 56320)
    (hpu2 : parseUHex r2 = some (m, r3)) (hm : 56320 ≤ m ∧ m < 57344) :
    parseStrAux (fuel + 1) acc ('\\' :: 'u' :: body) =
      parseStrAux fuel
        (Char.ofNat (65536 + (n - 55296) * 1024 + (m - 56320)) :: acc) r3 := by
  simp only [parseStrAux, hpu]
  rw [if_neg hc1, if_pos hc2]
  simp only [hpu2]
  rw [if_pos hm]

/-- One string-parser step: an ordinary character is kept. -/
theorem psa_plain {c : Char} (h1 : c ≠ '"') (h2 : c ≠ '\\') (h3 : ¬(c.toNat < 32))
    (fuel : Nat) (acc rest : List Char) :
    parseStrAux (fuel + 1) acc (c :: rest) = parseStrAux fuel (c :: acc) rest := by
  rw [parseStrAux.eq_def]
  split
  · rename_i heq
    exact absurd heq (Nat.succ_ne_zero fuel)
  · rename_i f' heq
    obtain rfl : f' = fuel := by omega
    split <;>
      first
        | (rename_i heq2; exact List.noConfusion heq2)
        | (rename_i heq2; exact absurd (List.cons.inj heq2).1 h1)
        | (rename_i heq2; exact absurd (List.cons.inj heq2).1 h2)
        | (rename_i c' rest' heq2
           obtain ⟨hc, hr⟩ := List.cons.inj heq2
           rw [← hc, ← hr, if_neg h3])

/-- `parseUHex` inverts `hex4` on code units below `2^16`. -/
theorem parseUHex_hex4 (t : Nat) (h : t < 65536) (X : List Char) :
    parseUHex (hex4 t ++ X) = some (t, X) := by
  have h1 := hexVal_hexDigitChar (show t / 4096 % 16 < 16 from Nat.mod_lt _ (by norm_num))
  have h2 := hexVal_hexDigitChar (show t / 256 % 16 < 16 from Nat.mod_lt _ (by norm_num))
  have h3 := hexVal_hexDigitChar (show t / 16 % 16 < 16 from Nat.mod_lt _ (by norm_num))
  have h4 := hexVal_hexDigitChar (show t % 16 < 16 from Nat.mod_lt _ (by norm_num))
  simp only [hex4, List.cons_append, List.nil_append, parseUHex, h1, h2, h3, h4]
  have ht : t / 4096 % 16 * 4096 + t / 256 % 16 * 256 + t / 16 % 16 * 16 + t % 16 = t := by
    omega
  rw [ht]

/-- Every character escapes to at least one character. -/
theorem jsonEscChar_length (c : Char) : 1 ≤ (jsonEscChar c).length := by
  unfold jsonEscChar
  split_ifs <;> simp [hex4]

/-- Escaping does not shorten a string. -/
theorem flatMap_esc_length (cs : List Char) :
    cs.length ≤ (cs.flatMap jsonEscChar).length := by
  induction cs with
  | nil => simp
  | cons c cs' ih =>
    rw [List.flatMap_cons, List.length_append, List.length_cons]
    have := jsonEscChar_length c
    omega

/-- Undoing `json.dumps` string escaping: with fuel above the decoded
length, the string-body parser reconstructs exactly the escaped
characters. -/
theorem parseStrAux_escape (cs : List Char) : ∀ (fuel : Nat) (acc rest : List Char),
    cs.length < fuel →
    parseStrAux fuel acc (cs.flatMap jsonEscChar ++ '"' :: rest) =
      some (acc.reverse ++ cs, rest) := by
  induction cs with
  | nil =>
    intro fuel acc rest hf
    cases fuel with
    | zero => omega
    | succ f =>
      rw [List.flatMap_nil, List.nil_append, psa_quote]
      simp
  | cons c cs' ih =>
    intro fuel acc rest hf
    cases fuel with
    | zero => simp at hf
    | succ f =>
      have hf' : cs'.length < f := by
        simp only [List.length_cons] at hf
        omega
      rw [List.flatMap_cons, List.append_assoc]
      by_cases h1 : c = '"'
      · subst h1
        rw [show jsonEscChar '"' = ['\\', '"'] by decide]
        rw [show (['\\', '"'] : List Char) ++ (cs'.flatMap jsonEscChar ++ '"' :: rest) =
          '\\' :: '"' :: (cs'.flatMap jsonEscChar ++ '"' :: rest) from rfl]
        rw [show ∀ X, parseStrAux (f + 1) acc ('\\' :: '"' :: X) =
          parseStrAux f ('"' :: acc) X from fun X => rfl]
        rw [ih f _ rest hf']
        simp
      by_cases h2 : c = '\\'
      · subst h2
        rw [show jsonEscChar '\\' = ['\\', '\\'] by decide]
        rw [show (['\\', '\\'] : List Char) ++ (cs'.flatMap jsonEscChar ++ '"' :: rest) =
          '\\' :: '\\' :: (cs'.flatMap jsonEscChar ++ '"' :: rest) from rfl]
        rw [show ∀ X, parseStrAux (f + 1) acc ('\\' :: '\\' :: X) =
          parseStrAux f ('\\' :: acc) X from fun X => rfl]
        rw [ih f _ rest hf']
        simp
      by_cases h3 : c = '\n'
      · subst h3
        rw [show jsonEscChar '\n' = ['\\', 'n'] by decide]
        rw [show (['\\', 'n'] : List Char) ++ (cs'.flatMap jsonEscChar ++ '"' :: rest) =
          '\\' :: 'n' :: (cs'.flatMap jsonEscChar ++ '"' :: rest) from rfl]
        rw [show ∀ X, parseStrAux (f + 1) acc ('\\' :: 'n' :: X) =
          parseStrAux f ('\n' :: acc) X from fun X => rfl]
        rw [ih f _ rest hf']
        simp
      by_cases h4 : c = '\r'
      · subst h4
        rw [show jsonEscChar '\r' = ['\\', 'r'] by decide]
        rw [show (['\\', 'r'] : List Char) ++ (cs'.flatMap jsonEscChar ++ '"' :: rest) =
          '\\' :: 'r' :: (cs'.flatMap jsonEscChar ++ '"' :: rest) from rfl]
        rw [show ∀ X, parseStrAux (f + 1) acc ('\\' :: 'r' :: X) =
          parseStrAux f ('\r' :: acc) X from fun X => rfl]
        rw [ih f _ rest hf']
        simp
      by_cases h5 : c = '\t'
      · subst h5
        rw [show jsonEscChar '\t' = ['\\', 't'] by decide]
        rw [show (['\\', 't'] : List Char) ++ (cs'.flatMap jsonEscChar ++ '"' :: rest) =
          '\\' :: 't' :: (cs'.flatMap jsonEscChar ++ '"' :: rest) from rfl]
        rw [show ∀ X, parseStrAux (f + 1) acc ('\\' :: 't' :: X) =
          parseStrAux f ('\t' :: acc) X from fun X => rfl]
        rw [ih f _ rest hf']
        simp
      by_cases h6 : c.toNat = 8
      · rw [show jsonEscChar c = ['\\', 'b'] by
          simp [jsonEscChar, h1, h2, h3, h4, h5, h6]]
        rw [show (['\\', 'b'] : List Char) ++ (cs'.flatMap jsonEscChar ++ '"' :: rest) =
          '\\' :: 'b' :: (cs'.flatMap jsonEscChar ++ '"' :: rest) from rfl]
        rw [show ∀ X, parseStrAux (f + 1) acc ('\\' :: 'b' :: X) =
          parseStrAux f (Char.ofNat 8 :: acc) X from fun X => rfl]
        rw [show Char.ofNat 8 = c by rw [← h6, Char.ofNat_toNat]]
        rw [ih f _ rest hf']
        simp
      by_cases h7 : c.toNat = 12
      · rw [show jsonEscChar c = ['\\', 'f'] by
          simp [jsonEscChar, h1, h2, h3, h4, h5, h6, h7]]
        rw [show (['\\', 'f'] : List Char) ++ (cs'.flatMap jsonEscChar ++ '"' :: rest) =
          '\\' :: 'f' :: (cs'.flatMap jsonEscChar ++ '"' :: rest) from rfl]
        rw [show ∀ X, parseStrAux (f + 1) acc ('\\' :: 'f' :: X) =
          parseStrAux f (Char.ofNat 12 :: acc) X from fun X => rfl]
        rw [show Char.ofNat 12 = c by rw [← h7, Char.ofNat_toNat]]
        rw [ih f _ rest hf']
        simp
      by_cases h8 : c.toNat < 32 ∨ (127 ≤ c.toNat ∧ c.toNat < 65536)
      · rw [show jsonEscChar c = '\\' :: 'u' :: hex4 c.toNat by
          simp [jsonEscChar, h1, h2, h3, h4, h5, h6, h7, h8]]
        have hlt : c.toNat < 65536 := by
          rcases h8 with h8 | ⟨_, h8b⟩
          · omega
          · exact h8b
        have hcond : c.toNat < 55296 ∨ 57344 ≤ c.toNat := by
          rcases h8 with h8 | ⟨h8a, h8b⟩
          · left; omega
          · rcases char_valid_nat c with hv | ⟨hv1, _⟩
            · left; exact hv
            · right; exact hv1
        rw [show ('\\' :: 'u' :: hex4 c.toNat) ++ (cs'.flatMap jsonEscChar ++ '"' :: rest) =
          '\\' :: 'u' :: (hex4 c.toNat ++ (cs'.flatMap jsonEscChar ++ '"' :: rest)) from rfl]
        rw [psa_u f acc _ _ c.toNat (parseUHex_hex4 c.toNat hlt _) hcond]
        rw [Char.ofNat_toNat, ih f _ rest hf']
        simp
      by_cases h9 : 65536 ≤ c.toNat
      · rw [show jsonEscChar c =
            '\\' :: 'u' :: hex4 (55296 + (c.toNat - 65536) / 1024) ++
              '\\' :: 'u' :: hex4 (56320 + (c.toNat - 65536) % 1024) by
          simp [jsonEscChar, h1, h2, h3, h4, h5, h6, h7, h8, h9]]
        have hmax : c.toNat < 1114112 := by
          rcases char_valid_nat c with hv | ⟨_, hv2⟩
          · omega
          · exact hv2
        have hdiv : (c.toNat - 65536) / 1024 < 1024 := by omega
        rw [show ('\\' :: 'u' :: hex4 (55296 + (c.toNat - 65536) / 1024) ++
              '\\' :: 'u' :: hex4 (56320 + (c.toNat - 65536) % 1024)) ++
            (cs'.flatMap jsonEscChar ++ '"' :: rest) =
          '\\' :: 'u' :: (hex4 (55296 + (c.toNat - 65536) / 1024) ++
            ('\\' :: 'u' :: (hex4 (56320 + (c.toNat - 65536) % 1024) ++
              (cs'.flatMap jsonEscChar ++ '"' :: rest)))) by simp]
        rw [psa_u_pair f acc _ _ _ (55296 + (c.toNat - 65536) / 1024)
          (56320 + (c.toNat - 65536) % 1024)
          (parseUHex_hex4 _ (by omega) _)
          (by omega) (by omega)
          (parseUHex_hex4 _ (by omega) _)
          (by omega)]
        have hback : 65536 + (55296 + (c.toNat - 65536) / 1024 - 55296) * 1024 +
            (56320 + (c.toNat - 65536) % 1024 - 56320) = c.toNat := by omega
        rw [hback, Char.ofNat_toNat, ih f _ rest hf']
        simp
      · -- ordinary printable character
        rw [show jsonEscChar c = [c] by
          simp [jsonEscChar, h1, h2, h3, h4, h5, h6, h7, h8, h9]]
        rw [show ([c] : List Char) ++ (cs'.flatMap jsonEscChar ++ '"' :: rest) =
          c :: (cs'.flatMap jsonEscChar ++ '"' :: rest) from rfl]
        rw [psa_plain h1 h2 (by omega) f acc _]
        rw [ih f _ rest hf']
        simp

/-- The digit consumer stops at a non-digit. -/
theorem parseNatAux_stop (n : Nat) (rest : List Char)
    (h : ∀ c, rest.head? = some c → c.isDigit = false) :
    parseNatAux n rest = (n, rest) := by
  cases rest with
  | nil => rfl
  | cons c t =>
    have hc := h c rfl
    simp [parseNatAux, hc]

/-- Consuming the printed digits of `n` accumulates exactly `n`. -/
theorem parseNatAux_natCharsAux : ∀ (fuel n : Nat), n < fuel →
    ∀ (acc : Nat) (rest : List Char),
    ∃ k, parseNatAux acc (natCharsAux fuel n ++ rest) =
      parseNatAux (acc * 10 ^ k + n) rest := by
  intro fuel
  induction fuel with
  | zero => intro n h; omega
  | succ f ih =>
    intro n h acc rest
    by_cases h10 : n < 10
    · refine ⟨1, ?_⟩
      rw [show natCharsAux (f + 1) n = [decDigitChar n] by simp [natCharsAux, h10]]
      simp only [List.cons_append, List.nil_append, parseNatAux,
        decDigitChar_isDigit h10, if_pos]
      rw [decDigitChar_toNat h10, pow_one]
      congr 1
      omega
    · have hlt : n / 10 < f := by omega
      rw [show natCharsAux (f + 1) n = natCharsAux f (n / 10) ++ [decDigitChar (n % 10)] by
        simp [natCharsAux, h10]]
      rw [List.append_assoc]
      obtain ⟨k, hk⟩ := ih (n / 10) hlt acc ([decDigitChar (n % 10)] ++ rest)
      rw [hk]
      refine ⟨k + 1, ?_⟩
      rw [show ([decDigitChar (n % 10)] ++ rest) = decDigitChar (n % 10) :: rest from rfl]
      simp only [parseNatAux, decDigitChar_isDigit (show n % 10 < 10 by omega), if_pos]
      rw [decDigitChar_toNat (show n % 10 < 10 by omega)]
      congr 1
      rw [pow_succ, ← mul_assoc]
      omega

/-- The printed digits of `n` start with a digit character. -/
theorem natCharsAux_head : ∀ (fuel n : Nat), n < fuel →
    ∃ c cs, natCharsAux fuel n = c :: cs ∧ c.isDigit = true := by
  intro fuel
  induction fuel with
  | zero => intro n h; omega
  | succ f ih =>
    intro n h
    by_cases h10 : n < 10
    · exact ⟨decDigitChar n, [], by simp [natCharsAux, h10], decDigitChar_isDigit h10⟩
    · obtain ⟨c, cs, hcons, hd⟩ := ih (n / 10) (by omega)
      exact ⟨c, cs ++ [decDigitChar (n % 10)], by simp [natCharsAux, h10, hcons], hd⟩

/-- `parseNum` inverts the decimal printer when no digit follows. -/
theorem parseNum_natChars (n : Nat) (rest : List Char)
    (h : ∀ c, rest.head? = some c → c.isDigit = false) :
    parseNum (natChars n ++ rest) = some (n, rest) := by
  obtain ⟨c, cs, hcons, hd⟩ := natCharsAux_head (n + 1) n (by omega)
  unfold natChars
  rw [hcons]
  simp only [List.cons_append, parseNum, hd, if_pos]
  rw [show c :: (cs ++ rest) = (c :: cs) ++ rest from rfl, ← hcons]
  obtain ⟨k, hk⟩ := parseNatAux_natCharsAux (n + 1) n (by omega) 0 rest
  rw [hk]
  simp only [Nat.zero_mul, Nat.zero_add]
  exact congrArg some (parseNatAux_stop n rest h)

/-- One value-parser step: `null`. -/
theorem parseVal_null (f : Nat) (rest : List Char) :
    parseVal (f + 1) ('n' :: 'u' :: 'l' :: 'l' :: rest) = some (.null, rest) := rfl

/-- One value-parser step: `true`. -/
theorem parseVal_true (f : Nat) (rest : List Char) :
    parseVal (f + 1) ('t' :: 'r' :: 'u' :: 'e' :: rest) = some (.bool true, rest) := rfl

/-- One value-parser step: `false`. -/
theorem parseVal_false (f : Nat) (rest : List Char) :
    parseVal (f + 1) ('f' :: 'a' :: 'l' :: 's' :: 'e' :: rest) = some (.bool false, rest) := rfl

/-- One value-parser step: a string literal. -/
theorem parseVal_quote (f : Nat) (body : List Char) :
    parseVal (f + 1) ('"' :: body) =
      match parseStrAux (body.length + 1) [] body with
      | some (cs, r) => some (.str (String.mk cs), r)
      | none => none := rfl

/-- One value-parser step: the empty array. -/
theorem parseVal_arrEmpty (f : Nat) (rest : List Char) :
    parseVal (f + 1) ('[' :: ']' :: rest) = some (.arr [], rest) := rfl

/-- One value-parser step: the empty object. -/
theorem parseVal_objEmpty (f : Nat) (rest : List Char) :
    parseVal (f + 1) ('\x7b' :: '\x7d' :: rest) = some (.obj [], rest) := rfl

/-- One value-parser step: a negative number. -/
theorem parseVal_minus (f : Nat) (cs : List Char) :
    parseVal (f + 1) ('-' :: cs) =
      match parseNum cs with
      | some (n, r) => some (.num (-(n : Int)), r)
      | none => none := rfl

/-- One value-parser step: a non-empty array defers to the element
parser. -/
theorem parseVal_arr (f : Nat) (cs : List Char) (c : Char) (X : List Char)
    (hsk : skipWs cs = c :: X) (hc : c ≠ ']') :
    parseVal (f + 1) ('[' :: cs) =
      match parseElems f (skipWs cs) with
      | some (elems, r) => some (.arr elems, r)
      | none => none := by
  simp only [parseVal]
  rw [skipWs_cons_not_ws (by decide)]
  split <;>
    first
      | (rename_i heq; exact List.noConfusion heq)
      | (rename_i heq; exact absurd (List.cons.inj heq).1 (by decide))
      | (rename_i g1 g2 g3 g4 g5 g6 g7 heq
         exact (g5 (List.cons.inj heq).1.symm).elim)
      | (rename_i rest' heq
         obtain rfl : rest' = cs := (List.cons.inj heq).2.symm
         rw [hsk]
         split
         · rename_i r heq2
           exact absurd (List.cons.inj heq2).1 hc
         · rfl)

/-- One value-parser step: a non-empty object defers to the member
parser. -/
theorem parseVal_obj (f : Nat) (cs : List Char) (c : Char) (X : List Char)
    (hsk : skipWs cs = c :: X) (hc : c ≠ '\x7d') :
    parseVal (f + 1) ('\x7b' :: cs) =
      match parseMembers f (skipWs cs) with
      | some (fields, r) => some (.obj fields, r)
      | none => none := by
  simp only [parseVal]
  rw [skipWs_cons_not_ws (by decide)]
  split <;>
    first
      | (rename_i heq; exact List.noConfusion heq)
      | (rename_i heq; exact absurd (List.cons.inj heq).1 (by decide))
      | (rename_i g1 g2 g3 g4 g5 g6 g7 heq
         exact (g6 (List.cons.inj heq).1.symm).elim)
      | (rename_i rest' heq
         obtain rfl : rest' = cs := (List.cons.inj heq).2.symm
         rw [hsk]
         split
         · rename_i r heq2
           exact absurd (List.cons.inj heq2).1 hc
         · rfl)

/-- One value-parser step: a leading digit starts a number. -/
theorem parseVal_digit (f : Nat) (c : Char) (cs : List Char) (hd : c.isDigit = true) :
    parseVal (f + 1) (c :: cs) =
      match parseNum (c :: cs) with
      | some (n, r) => some (.num (n : Int), r)
      | none => none := by
  simp only [parseVal]
  rw [skipWs_cons_not_ws (digit_head_facts hd).1]
  split <;>
    first
      | (rename_i heq; exact List.noConfusion heq)
      | (rename_i heq; exact absurd ((List.cons.inj heq).1 ▸ hd) (by decide))
      | (rename_i g1 g2 g3 g4 g5 g6 g7 heq
         obtain ⟨hc1, hc2⟩ := List.cons.inj heq
         subst hc1
         subst hc2
         rw [if_pos hd])

/-- Leading whitespace does not affect the value parser. -/
theorem parseVal_ws (fuel : Nat) {ws : List Char} (h : ∀ c ∈ ws, isJsonWs c = true)
    (cs : List Char) : parseVal fuel (ws ++ cs) = parseVal fuel cs := by
  cases fuel with
  | zero => rfl
  | succ f =>
    simp only [parseVal]
    rw [skipWs_append_ws h]

/-- Leading whitespace does not affect the element parser. -/
theorem parseElems_ws (fuel : Nat) {ws : List Char} (h : ∀ c ∈ ws, isJsonWs c = true)
    (cs : List Char) : parseElems fuel (ws ++ cs) = parseElems fuel cs := by
  cases fuel with
  | zero => rfl
  | succ f =>
    simp only [parseElems]
    rw [parseVal_ws f h cs]

/-- Leading whitespace does not affect the member parser. -/
theorem parseMembers_ws (fuel : Nat) {ws : List Char} (h : ∀ c ∈ ws, isJsonWs c = true)
    (cs : List Char) : parseMembers fuel (ws ++ cs) = parseMembers fuel cs := by
  cases fuel with
  | zero => rfl
  | succ f =>
    simp only [parseMembers]
    rw [skipWs_append_ws h]

/-- Every serialized value starts with a character that is neither
whitespace nor a closing bracket or brace. -/
theorem dumpVal_head (ind : Nat) (v : JVal) :
    ∃ c cs, dumpVal ind v = c :: cs ∧ isJsonWs c = false ∧ c ≠ ']' ∧ c ≠ '\x7d' := by
  cases v with
  | null => refine ⟨'n', _, rfl, ?_, ?_, ?_⟩ <;> decide
  | bool b =>
    cases b with
    | true => refine ⟨'t', _, rfl, ?_, ?_, ?_⟩ <;> decide
    | false => refine ⟨'f', _, rfl, ?_, ?_, ?_⟩ <;> decide
  | num n =>
    by_cases hn : n < 0
    · refine ⟨'-', natChars n.natAbs, ?_, by decide, by decide, by decide⟩
      simp [dumpVal, intChars, hn]
    · obtain ⟨c, cs, hcons, hd⟩ := natCharsAux_head (n.toNat + 1) n.toNat (by omega)
      have hfacts := digit_head_facts hd
      refine ⟨c, cs, ?_, hfacts.1, hfacts.2.1, hfacts.2.2.1⟩
      simp only [dumpVal, intChars, hn, if_false]
      exact hcons
  | str s =>
    refine ⟨'"', s.toList.flatMap jsonEscChar ++ ['"'], rfl, ?_, ?_, ?_⟩ <;> decide
  | arr elems =>
    cases elems with
    | nil => refine ⟨'[', _, rfl, ?_, ?_, ?_⟩ <;> decide
    | cons x xs => refine ⟨'[', _, rfl, ?_, ?_, ?_⟩ <;> decide
  | obj fields =>
    cases fields with
    | nil => refine ⟨'\x7b', _, rfl, ?_, ?_, ?_⟩ <;> decide
    | cons p ps => refine ⟨'\x7b', _, rfl, ?_, ?_, ?_⟩ <;> decide

/-- A serialized non-empty element list starts with its first element. -/
theorem dumpElems_cons (ind : Nat) (x : JVal) (xs : List JVal) :
    ∃ T, dumpElems ind (x :: xs) = dumpVal ind x ++ T := by
  cases xs with
  | nil => exact ⟨[], by simp [dumpElems]⟩
  | cons y ys =>
    exact ⟨',' :: '\n' :: nspaces ind ++ dumpElems ind (y :: ys), by simp [dumpElems]⟩

/-- Element-parser step: an element followed by a comma continues the
list. -/
theorem parseElems_cons_step (f : Nat) (cs : List Char) (v : JVal) (r r2 : List Char)
    (h : parseVal f cs = some (v, r)) (hr : skipWs r = ',' :: r2) :
    parseElems (f + 1) cs =
      match parseElems f r2 with
      | some (elems, r3) => some (v :: elems, r3)
      | none => none := by
  simp only [parseElems, h, hr]

/-- Element-parser step: an element followed by `]` closes the list. -/
theorem parseElems_last_step (f : Nat) (cs : List Char) (v : JVal) (r r2 : List Char)
    (h : parseVal f cs = some (v, r)) (hr : skipWs r = ']' :: r2) :
    parseElems (f + 1) cs = some ([v], r2) := by
  simp only [parseElems, h, hr]

/-- Member-parser step: a `"key": value` pair followed by a comma
continues the object. -/
theorem parseMembers_cons_step (f : Nat) (cs body r1 r2 r3 r4 : List Char)
    (key : List Char) (v : JVal)
    (hsk : skipWs cs = '"' :: body)
    (hstr : parseStrAux (body.length + 1) [] body = some (key, r1))
    (hcolon : skipWs r1 = ':' :: r2)
    (hval : parseVal f r2 = some (v, r3))
    (hcomma : skipWs r3 = ',' :: r4) :
    parseMembers (f + 1) cs =
      match parseMembers f r4 with
      | some (fields, r5) => some ((String.mk key, v) :: fields, r5)
      | none => none := by
  simp only [parseMembers, hsk, hstr, hcolon, hval, hcomma]

/-- Member-parser step: a `"key": value` pair followed by the closing
brace ends the object. -/
theorem parseMembers_last_step (f : Nat) (cs body r1 r2 r3 r4 : List Char)
    (key : List Char) (v : JVal)
    (hsk : skipWs cs = '"' :: body)
    (hstr : parseStrAux (body.length + 1) [] body = some (key, r1))
    (hcolon : skipWs r1 = ':' :: r2)
    (hval : parseVal f r2 = some (v, r3))
    (hbrace : skipWs r3 = '\x7d' :: r4) :
    parseMembers (f + 1) cs = some ([(String.mk key, v)], r4) := by
  simp only [parseMembers, hsk, hstr, hcolon, hval, hbrace]

/-- `'\n'` followed by spaces is all whitespace. -/
theorem newline_nspaces_ws (n : Nat) : ∀ c ∈ ('\n' :: nspaces n), isJsonWs c = true := by
  intro c hc
  rcases List.mem_cons.mp hc with rfl | hc2
  · decide
  · rw [List.eq_of_mem_replicate hc2]
    decide

/-- A serialized non-empty element list starts with a character that is
neither whitespace nor a closing bracket or brace. -/
theorem dumpElems_head (ind : Nat) (x : JVal) (xs : List JVal) :
    ∃ c cs, dumpElems ind (x :: xs) = c :: cs ∧ isJsonWs c = false ∧
      c ≠ ']' ∧ c ≠ '\x7d' := by
  obtain ⟨T, hT⟩ := dumpElems_cons ind x xs
  obtain ⟨c, cs0, hcons, h1, h2, h3⟩ := dumpVal_head ind x
  exact ⟨c, cs0 ++ T, by rw [hT, hcons]; rfl, h1, h2, h3⟩

mutual

/-- Round trip of one serialized value: with fuel at least `needVal v`,
the value parser reconstructs `v` from its `json.dump` text, leaving any
non-digit-headed remainder intact. -/
theorem parseVal_dump (v : JVal) (ind fuel : Nat) (hfuel : needVal v ≤ fuel)
    (rest : List Char) (hrest : ∀ c, rest.head? = some c → c.isDigit = false) :
    parseVal fuel (dumpVal ind v ++ rest) = some (v, rest) := by
  cases v with
  | null =>
    cases fuel with
    | zero => simp [needVal] at hfuel
    | succ f => exact parseVal_null f rest
  | bool b =>
    cases fuel with
    | zero => simp [needVal] at hfuel
    | succ f =>
      cases b with
      | true => exact parseVal_true f rest
      | false => exact parseVal_false f rest
  | num n =>
    cases fuel with
    | zero => simp [needVal] at hfuel
    | succ f =>
      by_cases hn : n < 0
      · have hd : dumpVal ind (.num n) = '-' :: natChars n.natAbs := by
          simp [dumpVal, intChars, hn]
        rw [hd, show ('-' :: natChars n.natAbs) ++ rest =
          '-' :: (natChars n.natAbs ++ rest) from rfl, parseVal_minus,
          parseNum_natChars n.natAbs rest hrest]
        have hval : -((n.natAbs : Nat) : Int) = n := by omega
        exact congrArg (fun z => some (JVal.num z, rest)) hval
      · have hd : dumpVal ind (.num n) = natChars n.toNat := by
          simp [dumpVal, intChars, hn]
        rw [hd]
        obtain ⟨c, cs, hcons, hdg⟩ := natCharsAux_head (n.toNat + 1) n.toNat (by omega)
        rw [show natChars n.toNat = natCharsAux (n.toNat + 1) n.toNat from rfl, hcons,
          show (c :: cs) ++ rest = c :: (cs ++ rest) from rfl,
          parseVal_digit f c (cs ++ rest) hdg,
          show c :: (cs ++ rest) = (c :: cs) ++ rest from rfl, ← hcons,
          show natCharsAux (n.toNat + 1) n.toNat = natChars n.toNat from rfl,
          parseNum_natChars n.toNat rest hrest]
        have hval : ((n.toNat : Nat) : Int) = n := by omega
        exact congrArg (fun z => some (JVal.num z, rest)) hval
  | str s =>
    cases fuel with
    | zero => simp [needVal] at hfuel
    | succ f =>
      have hd : dumpVal ind (.str s) ++ rest =
          '"' :: (s.toList.flatMap jsonEscChar ++ '"' :: rest) := by
        simp [dumpVal, jsonQuote]
      rw [hd, parseVal_quote]
      have hlen : s.toList.length < (s.toList.flatMap jsonEscChar ++ '"' :: rest).length + 1 := by
        have := flatMap_esc_length s.toList
        simp only [List.length_append, List.length_cons]
        omega
      rw [parseStrAux_escape s.toList _ [] rest hlen]
      have hmk : String.mk (List.reverse [] ++ s.toList) = s := stringMk_data s
      exact congrArg (fun t => some (JVal.str t, rest)) hmk
  | arr elems =>
    cases elems with
    | nil =>
      cases fuel with
      | zero => simp [needVal, needElems] at hfuel
      | succ f =>
        rw [show dumpVal ind (.arr []) ++ rest = '[' :: ']' :: rest from rfl]
        exact parseVal_arrEmpty f rest
    | cons x xs =>
      cases fuel with
      | zero => simp [needVal] at hfuel
      | succ f =>
        simp only [needVal] at hfuel
        have hfe : needElems (x :: xs) ≤ f := by omega
        obtain ⟨c, cs0, hDE, hws, hbr, _⟩ := dumpElems_head (ind + 4) x xs
        have hshape : dumpVal ind (.arr (x :: xs)) ++ rest =
            '[' :: ('\n' :: (nspaces (ind + 4) ++ (dumpElems (ind + 4) (x :: xs) ++
              ('\n' :: (nspaces ind ++ (']' :: rest)))))) := by
          simp [dumpVal, List.cons_append, List.append_assoc]
        rw [hshape]
        have hsk : skipWs ('\n' :: (nspaces (ind + 4) ++ (dumpElems (ind + 4) (x :: xs) ++
            ('\n' :: (nspaces ind ++ (']' :: rest)))))) =
            c :: (cs0 ++ ('\n' :: (nspaces ind ++ (']' :: rest)))) := by
          rw [skipWs_newline_nspaces, hDE, List.cons_append, skipWs_cons_not_ws hws]
        rw [parseVal_arr f _ c _ hsk hbr, hsk,
          show c :: (cs0 ++ ('\n' :: (nspaces ind ++ (']' :: rest)))) =
            dumpElems (ind + 4) (x :: xs) ++ ('\n' :: (nspaces ind ++ (']' :: rest))) by
              rw [hDE, List.cons_append]]
        rw [parseElems_dump (x :: xs) (by simp) (ind + 4) f hfe _ rest
          (by rw [skipWs_newline_nspaces]; exact skipWs_cons_not_ws (by decide))]
  | obj fields =>
    cases fields with
    | nil =>
      cases fuel with
      | zero => simp [needVal, needMembers] at hfuel
      | succ f =>
        rw [show dumpVal ind (.obj []) ++ rest = '\x7b' :: '\x7d' :: rest from rfl]
        exact parseVal_objEmpty f rest
    | cons p ps =>
      cases fuel with
      | zero => simp [needVal] at hfuel
      | succ f =>
        simp only [needVal] at hfuel
        have hfm : needMembers (p :: ps) ≤ f := by omega
        have hshape : dumpVal ind (.obj (p :: ps)) ++ rest =
            '\x7b' :: ('\n' :: (nspaces (ind + 4) ++ (dumpMembers (ind + 4) (p :: ps) ++
              ('\n' :: (nspaces ind ++ ('\x7d' :: rest)))))) := by
          simp [dumpVal, List.cons_append, List.append_assoc]
        rw [hshape]
        have hMhead : ∃ cs1, dumpMembers (ind + 4) (p :: ps) = '"' :: cs1 := by
          obtain ⟨k, v⟩ := p
          cases ps with
          | nil =>
            exact ⟨k.toList.flatMap jsonEscChar ++ '"' :: (':' :: ' ' :: dumpVal (ind + 4) v),
              by simp [dumpMembers, jsonQuote]⟩
          | cons q qs =>
            exact ⟨k.toList.flatMap jsonEscChar ++ '"' :: (':' :: ' ' :: (dumpVal (ind + 4) v ++
                ',' :: '\n' :: nspaces (ind + 4) ++ dumpMembers (ind + 4) (q :: qs))),
              by simp [dumpMembers, jsonQuote]⟩
        obtain ⟨cs1, hM⟩ := hMhead
        have hsk : skipWs ('\n' :: (nspaces (ind + 4) ++ (dumpMembers (ind + 4) (p :: ps) ++
            ('\n' :: (nspaces ind ++ ('\x7d' :: rest)))))) =
            '"' :: (cs1 ++ ('\n' :: (nspaces ind ++ ('\x7d' :: rest)))) := by
          rw [skipWs_newline_nspaces, hM, List.cons_append, skipWs_cons_not_ws (by decide)]
        rw [parseVal_obj f _ '"' _ hsk (by decide), hsk,
          show '"' :: (cs1 ++ ('\n' :: (nspaces ind ++ ('\x7d' :: rest)))) =
            dumpMembers (ind + 4) (p :: ps) ++ ('\n' :: (nspaces ind ++ ('\x7d' :: rest))) by
              rw [hM, List.cons_append]]
        rw [parseMembers_dump (p :: ps) (by simp) (ind + 4) f hfm _ rest
          (by rw [skipWs_newline_nspaces]; exact skipWs_cons_not_ws (by decide))]

termination_by fuel

/-- Round trip of a serialized non-empty element list followed by text
whose whitespace skip exposes the closing bracket. -/
theorem parseElems_dump (elems : List JVal) (hne : elems ≠ []) (ind fuel : Nat)
    (hfuel : needElems elems ≤ fuel) (tail rest : List Char)
    (htail : skipWs tail = ']' :: rest) :
    parseElems fuel (dumpElems ind elems ++ tail) = some (elems, rest) := by
  cases elems with
  | nil => exact absurd rfl hne
  | cons x xs =>
    cases fuel with
    | zero => simp [needElems] at hfuel
    | succ f =>
      simp only [needElems] at hfuel
      have hboth := Nat.max_le.mp (show max (needVal x) (needElems xs) ≤ f by omega)
      cases xs with
      | nil =>
        rw [show dumpElems ind [x] = dumpVal ind x by simp [dumpElems]]
        exact parseElems_last_step f _ x tail rest
          (parseVal_dump x ind f hboth.1 tail
            (head_not_digit_of_skipWs htail (by decide))) htail
      | cons y ys =>
        have hdE : dumpElems ind (x :: y :: ys) ++ tail =
            dumpVal ind x ++ (',' :: ('\n' :: (nspaces ind ++
              (dumpElems ind (y :: ys) ++ tail)))) := by
          simp [dumpElems, List.cons_append, List.append_assoc]
        rw [hdE]
        have hpv := parseVal_dump x ind f hboth.1
          (',' :: ('\n' :: (nspaces ind ++ (dumpElems ind (y :: ys) ++ tail))))
          (by intro c hc; simp at hc; subst hc; decide)
        have hskR : skipWs (',' :: ('\n' :: (nspaces ind ++
            (dumpElems ind (y :: ys) ++ tail)))) =
            ',' :: ('\n' :: (nspaces ind ++ (dumpElems ind (y :: ys) ++ tail))) :=
          skipWs_cons_not_ws (by decide)
        rw [parseElems_cons_step f _ x _ _ hpv hskR,
          show ('\n' :: (nspaces ind ++ (dumpElems ind (y :: ys) ++ tail))) =
            ('\n' :: nspaces ind) ++ (dumpElems ind (y :: ys) ++ tail) by simp,
          parseElems_ws f (newline_nspaces_ws ind) _,
          parseElems_dump (y :: ys) (by simp) ind f hboth.2 tail rest htail]

termination_by fuel

/-- Round trip of a serialized non-empty member list followed by text
whose whitespace skip exposes the closing brace. -/
theorem parseMembers_dump (fields : List (String × JVal)) (hne : fields ≠ [])
    (ind fuel : Nat) (hfuel : needMembers fields ≤ fuel) (tail rest : List Char)
    (htail : skipWs tail = '\x7d' :: rest) :
    parseMembers fuel (dumpMembers ind fields ++ tail) = some (fields, rest) := by
  cases fields with
  | nil => exact absurd rfl hne
  | cons p ps =>
    obtain ⟨k, v⟩ := p
    cases fuel with
    | zero => simp [needMembers] at hfuel
    | succ f =>
      simp only [needMembers] at hfuel
      have hboth := Nat.max_le.mp (show max (needVal v) (needMembers ps) ≤ f by omega)
      cases ps with
      | nil =>
        have hdM : dumpMembers ind [(k, v)] ++ tail =
            '"' :: (k.toList.flatMap jsonEscChar ++ '"' ::
              (':' :: (' ' :: (dumpVal ind v ++ tail)))) := by
          simp [dumpMembers, jsonQuote, List.cons_append, List.append_assoc]
        rw [hdM]
        have hlen : k.toList.length <
            (k.toList.flatMap jsonEscChar ++ '"' ::
              (':' :: (' ' :: (dumpVal ind v ++ tail)))).length + 1 := by
          have := flatMap_esc_length k.toList
          simp only [List.length_append, List.length_cons]
          omega
        have hstr := parseStrAux_escape k.toList _ []
          (':' :: (' ' :: (dumpVal ind v ++ tail))) hlen
        have hval : parseVal f (' ' :: (dumpVal ind v ++ tail)) = some (v, tail) := by
          rw [show (' ' :: (dumpVal ind v ++ tail)) = [' '] ++ (dumpVal ind v ++ tail) from rfl,
            parseVal_ws f (by intro c hc; simp at hc; subst hc; decide) _]
          exact parseVal_dump v ind f hboth.1 tail
            (head_not_digit_of_skipWs htail (by decide))
        rw [parseMembers_last_step f _ _ _ _ _ _ k.toList v
          (skipWs_cons_not_ws (by decide)) hstr (skipWs_cons_not_ws (by decide)) hval htail]
        have hmk : String.mk (List.reverse [] ++ k.toList) = k := stringMk_data k
        exact congrArg (fun t => some ([(t, v)], rest)) hmk
      | cons q qs =>
        have hdM : dumpMembers ind ((k, v) :: q :: qs) ++ tail =
            '"' :: (k.toList.flatMap jsonEscChar ++ '"' ::
              (':' :: (' ' :: (dumpVal ind v ++
                (',' :: ('\n' :: (nspaces ind ++
                  (dumpMembers ind (q :: qs) ++ tail)))))))) := by
          simp [dumpMembers, jsonQuote, List.cons_append, List.append_assoc]
        rw [hdM]
        have hlen : k.toList.length <
            (k.toList.flatMap jsonEscChar ++ '"' ::
              (':' :: (' ' :: (dumpVal ind v ++
                (',' :: ('\n' :: (nspaces ind ++
                  (dumpMembers ind (q :: qs) ++ tail)))))))).length + 1 := by
          have := flatMap_esc_length k.toList
          simp only [List.length_append, List.length_cons]
          omega
        have hstr := parseStrAux_escape k.toList _ []
          (':' :: (' ' :: (dumpVal ind v ++
            (',' :: ('\n' :: (nspaces ind ++ (dumpMembers ind (q :: qs) ++ tail))))))) hlen
        have hval : parseVal f (' ' :: (dumpVal ind v ++
            (',' :: ('\n' :: (nspaces ind ++ (dumpMembers ind (q :: qs) ++ tail)))))) =
            some (v, ',' :: ('\n' :: (nspaces ind ++
              (dumpMembers ind (q :: qs) ++ tail)))) := by
          rw [show (' ' :: (dumpVal ind v ++
              (',' :: ('\n' :: (nspaces ind ++ (dumpMembers ind (q :: qs) ++ tail)))))) =
            [' '] ++ (dumpVal ind v ++
              (',' :: ('\n' :: (nspaces ind ++ (dumpMembers ind (q :: qs) ++ tail)))))
            from rfl,
            parseVal_ws f (by intro c hc; simp at hc; subst hc; decide) _]
          exact parseVal_dump v ind f hboth.1 _
            (by intro c hc; simp at hc; subst hc; decide)
        rw [parseMembers_cons_step f _ _ _ _ _ _ k.toList v
          (skipWs_cons_not_ws (by decide)) hstr (skipWs_cons_not_ws (by decide)) hval
          (skipWs_cons_not_ws (by decide)),
          show ('\n' :: (nspaces ind ++ (dumpMembers ind (q :: qs) ++ tail))) =
            ('\n' :: nspaces ind) ++ (dumpMembers ind (q :: qs) ++ tail) by simp,
          parseMembers_ws f (newline_nspaces_ws ind) _,
          parseMembers_dump (q :: qs) (by simp) ind f hboth.2 tail rest htail]
        have hmk : String.mk (List.reverse [] ++ k.toList) = k := stringMk_data k
        exact congrArg (fun t => some ((t, v) :: q :: qs, rest)) hmk
termination_by fuel

end

/-- The parsing fuel a serialization needs is bounded by its length
(plus a slack of 3 for list bodies), shown for all three syntactic
classes at once by induction on size. -/
theorem need_le_bundle : ∀ (N ind : Nat),
    (∀ v : JVal, sizeOf v ≤ N → needVal v ≤ (dumpVal ind v).length) ∧
    (∀ elems : List JVal, sizeOf elems ≤ N →
      needElems elems ≤ (dumpElems ind elems).length + 3) ∧
    (∀ fields : List (String × JVal), sizeOf fields ≤ N →
      needMembers fields ≤ (dumpMembers ind fields).length + 3) := by
  intro N
  induction N with
  | zero =>
    intro ind
    refine ⟨?_, ?_, ?_⟩
    · intro v hv
      exact absurd hv (by cases v <;> simp_arith)
    · intro elems hv
      exact absurd hv (by cases elems <;> simp_arith)
    · intro fields hv
      exact absurd hv (by cases fields <;> simp_arith)
  | succ N ih =>
    intro ind
    refine ⟨?_, ?_, ?_⟩
    · intro v hv
      cases v with
      | null => simp [needVal, dumpVal]
      | bool b => cases b <;> simp [needVal, dumpVal]
      | num n =>
        simp only [needVal, dumpVal, intChars]
        by_cases hn : n < 0
        · simp [hn]
        · simp only [hn, if_false]
          obtain ⟨c, cs, hcons, _⟩ := natCharsAux_head (n.toNat + 1) n.toNat (by omega)
          unfold natChars
          rw [hcons]
          simp
      | str s => simp [needVal, dumpVal, jsonQuote]
      | arr elems =>
        cases elems with
        | nil => simp [needVal, needElems, dumpVal]
        | cons x xs =>
          have he := ((ih (ind + 4)).2.1) (x :: xs)
            (by simp_arith at hv ⊢; omega)
          simp only [needVal, dumpVal, List.length_cons, List.length_append, nspaces,
            List.length_replicate]
          omega
      | obj fields =>
        cases fields with
        | nil => simp [needVal, needMembers, dumpVal]
        | cons p ps =>
          have he := ((ih (ind + 4)).2.2) (p :: ps)
            (by simp_arith at hv ⊢; omega)
          simp only [needVal, dumpVal, List.length_cons, List.length_append, nspaces,
            List.length_replicate]
          omega
    · intro elems hv
      cases elems with
      | nil => simp [needElems, dumpElems]
      | cons x xs =>
        have hx := (ih ind).1 x (by simp_arith at hv ⊢; omega)
        cases xs with
        | nil =>
          rw [show needElems [x] = 1 + max (needVal x) (needElems []) from rfl,
            show needElems ([] : List JVal) = 0 from rfl, Nat.max_zero,
            show dumpElems ind [x] = dumpVal ind x from rfl]
          omega
        | cons y ys =>
          have hy := (ih ind).2.1 (y :: ys) (by simp_arith at hv ⊢; omega)
          obtain ⟨c, cs0, hcons, _⟩ := dumpVal_head ind x
          have hxlen : 1 ≤ (dumpVal ind x).length := by rw [hcons]; simp
          rw [show needElems (x :: y :: ys) = 1 + max (needVal x) (needElems (y :: ys))
              from rfl,
            show dumpElems ind (x :: y :: ys) = dumpVal ind x ++
              (',' :: ('\n' :: (nspaces ind ++ dumpElems ind (y :: ys))))
              by simp [dumpElems]]
          simp only [List.length_append, List.length_cons, nspaces, List.length_replicate]
          have hm := Nat.max_le.mpr (⟨by omega, by omega⟩ :
            needVal x ≤ (dumpVal ind x).length + (2 + (ind + (dumpElems ind (y :: ys)).length)) + 2 ∧
            needElems (y :: ys) ≤ (dumpVal ind x).length + (2 + (ind + (dumpElems ind (y :: ys)).length)) + 2)
          omega
    · intro fields hv
      cases fields with
      | nil => simp [needMembers, dumpMembers]
      | cons p ps =>
        obtain ⟨k, v⟩ := p
        have hx := (ih ind).1 v (by simp_arith at hv ⊢; omega)
        cases ps with
        | nil =>
          rw [show needMembers [(k, v)] = 1 + max (needVal v) (needMembers []) from rfl,
            show needMembers ([] : List (String × JVal)) = 0 from rfl, Nat.max_zero,
            show dumpMembers ind [(k, v)] = jsonQuote k ++ (':' :: (' ' :: dumpVal ind v))
              from rfl]
          simp only [jsonQuote, List.length_append, List.length_cons]
          omega
        | cons q qs =>
          have hy := (ih ind).2.2 (q :: qs) (by simp_arith at hv ⊢; omega)
          obtain ⟨c, cs0, hcons, _⟩ := dumpVal_head ind v
          have hxlen : 1 ≤ (dumpVal ind v).length := by rw [hcons]; simp
          rw [show needMembers ((k, v) :: q :: qs) =
              1 + max (needVal v) (needMembers (q :: qs)) from rfl,
            show dumpMembers ind ((k, v) :: q :: qs) = jsonQuote k ++ (':' :: (' ' ::
              (dumpVal ind v ++ (',' :: ('\n' :: (nspaces ind ++
                dumpMembers ind (q :: qs)))))))
              by simp [dumpMembers]]
          simp only [jsonQuote, List.length_append, List.length_cons, nspaces,
            List.length_replicate]
          have hm := Nat.max_le.mpr (⟨by omega, by omega⟩ :
            needVal v ≤ (k.toList.flatMap jsonEscChar).length + 1 +
              ((dumpVal ind v).length + (2 + (ind + (dumpMembers ind (q :: qs)).length)) + 2) + 1 ∧
            needMembers (q :: qs) ≤ (k.toList.flatMap jsonEscChar).length + 1 +
              ((dumpVal ind v).length + (2 + (ind + (dumpMembers ind (q :: qs)).length)) + 2) + 1)
          omega

/-- Any serialized value parses within the fuel `parseJson` supplies. -/
theorem needVal_le_length (ind : Nat) (v : JVal) :
    needVal v ≤ (dumpVal ind v).length :=
  (need_le_bundle (sizeOf v) ind).1 v le_rfl

/-- `json.loads` of `json.dumps(v, indent=4)` gives back `v`. -/
theorem parseJson_dumpVal (v : JVal) : parseJson (dumpVal 0 v) = some v := by
  unfold parseJson
  have h := parseVal_dump v 0 ((dumpVal 0 v).length + 1)
    (Nat.le_succ_of_le (needVal_le_length 0 v)) [] (by intro c hc; simp at hc)
  rw [List.append_nil] at h
  rw [h]
  rfl

/-- **C1**: `save_to_json` writes the `data` array as `json.dump(data,
file, indent=4)` -- pretty-printed with a four-space indent and no field
renaming -- and parsing the written file yields a structure equal to the
original array, for every serializable result set. -/
theorem c1_json_roundtrip (data : List JVal) :
    save_to_json (.arr data) = .ok (dumpVal 0 (.arr data)) ∧
    parseJson (dumpVal 0 (.arr data)) = some (.arr data) :=
  ⟨rfl, parseJson_dumpVal (.arr data)⟩

set_option maxRecDepth 8192 in
example :
    parseJson (dumpVal 0 (.arr [.obj [("tagName", .str "Tag1.PV"),
      ("tagContext", .obj [("historianItemId", .str "h\n1"), ("oldestTimeStamp", .null),
        ("latestTimeStamp", .num (-3))])]])) =
    some (.arr [.obj [("tagName", .str "Tag1.PV"),
      ("tagContext", .obj [("historianItemId", .str "h\n1"), ("oldestTimeStamp", .null),
        ("latestTimeStamp", .num (-3))])]]) := by decide
